import Mathlib

/-!
Verification development for the caterva chunked N-dimensional array engine
(header `blosc/caterva.h`).  The public API is declared in the header; the
data model and the behaviour of every operation are specified in the
accompanying natural-language specification.  This file gives a shallow
embedding of that engine and proves the testable properties stated by the
specification.

Modelling conventions:
- machine integers (`int64_t`, `int32_t`, `int8_t`) are modelled as `Nat`
  or `Int` with explicit bounds where they matter;
- a data buffer is modelled as a `List Nat` of items, one entry per
  `typesize`-byte element; byte-equality of two buffers of the same
  typesize is exactly equality of the item lists, and a byte count
  `buffersize` relates to an item count by `buffersize = count * typesize`;
- the compressed super-chunk store is modelled by the list of decompressed
  chunk payloads (compression is a bijection on payloads and is out of
  scope per the specification).
-/

namespace Caterva

/-- Modelled from the spec: axiswise strict comparison of two coordinate
vectors; also enforces that the two vectors have the same length. -/
def axLt : List Nat → List Nat → Bool
  | [], [] => true
  | a :: as, b :: bs => decide (a < b) && axLt as bs
  | _, _ => false

/-- Modelled from the spec: axiswise non-strict comparison of two coordinate
vectors; also enforces that the two vectors have the same length. -/
def axLe : List Nat → List Nat → Bool
  | [], [] => true
  | a :: as, b :: bs => decide (a ≤ b) && axLe as bs
  | _, _ => false

/-- Modelled from the spec: all entries of a shape vector are positive. -/
def axPos (l : List Nat) : Bool :=
  l.all (fun x => decide (0 < x))

/-- Axiswise addition of coordinate vectors. -/
def axAdd (a b : List Nat) : List Nat := List.zipWith (fun x y => x + y) a b

/-- Axiswise truncated subtraction of coordinate vectors. -/
def axSub (a b : List Nat) : List Nat := List.zipWith (fun x y => x - y) a b

/-- Axiswise multiplication of coordinate vectors. -/
def axMul (a b : List Nat) : List Nat := List.zipWith (fun x y => x * y) a b

/-- Axiswise quotient, as in the spec mapping `chunk_of(c) = c / chunkshape`. -/
def axDiv (a b : List Nat) : List Nat := List.zipWith (fun x y => x / y) a b

/-- Axiswise remainder, the intra-chunk coordinate of an item coordinate. -/
def axMod (a b : List Nat) : List Nat := List.zipWith (fun x y => x % y) a b

/-- Axiswise ceiling division, as in the spec derived shape
`extshape[i] = ceil(shape[i] / chunkshape[i]) * chunkshape[i]`. -/
def axCeilDiv (a b : List Nat) : List Nat :=
  List.zipWith (fun x y => (x + y - 1) / y) a b

/-- Axiswise maximum. -/
def axMax (a b : List Nat) : List Nat := List.zipWith (fun x y => max x y) a b

/-- Axiswise minimum. -/
def axMin (a b : List Nat) : List Nat := List.zipWith (fun x y => min x y) a b

/-- Modelled from the spec: `coord_to_offset(c, strides)` specialised to the
row-major layout over a vector of extents: the linear offset of coordinate
`cs` inside a box of extents `es` (most significant axis first). -/
def fromCoord : List Nat → List Nat → Nat
  | _ :: es, c :: cs => c * es.prod + fromCoord es cs
  | _, _ => 0

/-- Modelled from the spec: `offset_to_coord(i, extents)`, quotient/remainder
descent, most significant axis first. -/
def toCoord : List Nat → Nat → List Nat
  | [], _ => []
  | _ :: es, o => (o / es.prod) :: toCoord es (o % es.prod)

/-- Modelled from the spec: the stride vector over a vector of extents, each
stride being the product of the succeeding extents (row-major, in items). -/
def strides : List Nat → List Nat
  | [] => []
  | _ :: es => es.prod :: strides es

/-- Map over a list with the position of each element, starting at `i`. -/
def mapWithIndex (f : Nat → α → β) : Nat → List α → List β
  | _, [] => []
  | i, a :: as => f i a :: mapWithIndex f (i + 1) as

/-- Linear offset of a local coordinate `r` inside a chunk padded to whole
blocks: the payload of a chunk is laid out block by block (row-major over
the block grid), and row-major over `blockshape` inside each block.  This is
the `item_block_strides` and `block_chunk_strides` layout of the spec. -/
def intraChunkOffset (bs bgrid r : List Nat) : Nat :=
  fromCoord bgrid (axDiv r bs) * bs.prod + fromCoord bs (axMod r bs)

/-- Inverse of `intraChunkOffset`: the local coordinate (inside the padded
chunk) of payload position `p`. -/
def intraChunkCoord (bs bgrid : List Nat) (p : Nat) : List Nat :=
  axAdd (axMul (toCoord bgrid (p / bs.prod)) bs) (toCoord bs (p % bs.prod))

/-- Duplicate-freeness of one axis of an orthogonal selection. -/
def distinctL : List Nat → Bool
  | [] => true
  | x :: xs => (!xs.any (fun y => decide (y = x))) && distinctL xs

/-- Index of the last occurrence of `x` in a list, if any.  Used to resolve
duplicate indices in an orthogonal-selection write: the spec says later
writes at duplicate indices overwrite earlier ones, in the row-major order
of the caller buffer. -/
def lastIdx : List Nat → Nat → Option Nat
  | [], _ => none
  | a :: as, x =>
    match lastIdx as x with
    | some j => some (j + 1)
    | none => if a = x then some 0 else none

/-- The item coordinate addressed by the tuple `js` of per-axis positions in
an orthogonal selection. -/
def selCoord (selection : List (List Nat)) (js : List Nat) : List Nat :=
  List.zipWith (fun s j => s.getD j 0) selection js

/-- For each axis, the position of the last occurrence of the coordinate in
the selection list of that axis; `none` if some axis does not select it. -/
def selLastIdx : List (List Nat) → List Nat → Option (List Nat)
  | [], [] => some []
  | s :: ss, x :: xs =>
    match lastIdx s x, selLastIdx ss xs with
    | some j, some js => some (j :: js)
    | _, _ => none
  | _, _ => some []

/-- Modelled from the spec: validity of an orthogonal selection against a
shape, per axis: the selection list has the declared size and every selected
index is inside the shape. -/
def selValid : List (List Nat) → List Nat → List Nat → Bool
  | [], [], [] => true
  | s :: ss, z :: zs, n :: ns =>
    decide (s.length = z) && s.all (fun x => decide (x < n)) && selValid ss zs ns
  | _, _, _ => false

/-- Componentwise duplicate-freeness of an orthogonal selection. -/
def selDistinct : List (List Nat) → Bool
  | [] => true
  | s :: ss => distinctL s && selDistinct ss

/-- Drop the axes marked `true` in the mask (squeeze). -/
def squeezeAxes : List Bool → List Nat → List Nat
  | [], l => l
  | _, [] => []
  | m :: ms, x :: xs => if m then squeezeAxes ms xs else x :: squeezeAxes ms xs

/-- Re-insert the squeezed axes: map a coordinate of the squeezed array back
to a coordinate of the original array, putting index `0` on every removed
(necessarily singleton) axis. -/
def unsqueezeCoord : List Bool → List Nat → List Nat
  | [], _ => []
  | m :: ms, g => if m then 0 :: unsqueezeCoord ms g
                  else g.headD 0 :: unsqueezeCoord ms g.tail

/-- Compatibility of a squeeze mask with a shape: every marked axis has
extent one (the condition under which a squeeze succeeds). -/
def maskSqueezable : List Bool → List Nat → Bool
  | [], [] => true
  | m :: ms, x :: xs => (!m || decide (x = 1)) && maskSqueezable ms xs
  | _, _ => false

/-- Modelled from the spec: per-axis source index of a resize.  `so` is the
old extent, `sn` the new extent and `st` the start position of the change.
Growing inserts `sn - so` fresh items at `st` (the fresh items have no
source, hence `none`); shrinking removes the items `[st, st + (so - sn))`. -/
def axisResizeMap (so sn st g : Nat) : Option Nat :=
  if so ≤ sn then
    if g < st then some g
    else if g < st + (sn - so) then none
    else some (g - (sn - so))
  else
    some (if g < st then g else g + (so - sn))

/-- Source coordinate of a coordinate of the resized array, `none` when the
coordinate lies in a freshly inserted (uninitialized) region. -/
def resizeSrcCoord : List Nat → List Nat → List Nat → List Nat → Option (List Nat)
  | so :: sos, sn :: sns, st :: sts, g :: gs =>
    match axisResizeMap so sn st g, resizeSrcCoord sos sns sts gs with
    | some x, some xs => some (x :: xs)
    | _, _ => none
  | _, _, _, _ => some []

/-- Modelled from the spec: the per-axis validity checks of `caterva_resize`
(error kind `BadAxis`): every new extent is at least one, and the start
position of the change lies inside both the old and the new extent. -/
def resizeChecksOk : List Nat → List Int → List Int → Bool
  | [], [], [] => true
  | so :: sos, sn :: sns, st :: sts =>
    decide (1 ≤ sn) && decide (0 ≤ st) && decide (st ≤ min (so : Int) sn) &&
      resizeChecksOk sos sns sts
  | _, _, _ => false

/-- Modelled from the spec: bounds validation shared by the region kernel,
`0 ≤ start[i] ≤ stop[i] ≤ shape[i]` for every axis (error `OutOfBounds`
otherwise). -/
def sliceBoundsOk : List Nat → List Int → List Int → Bool
  | [], [], [] => true
  | n :: ns, a :: as, b :: bs =>
    decide (0 ≤ a) && decide (a ≤ b) && decide (b ≤ (n : Int)) && sliceBoundsOk ns as bs
  | _, _, _ => false

/-- Extents of the region `[start, stop)`. -/
def sliceShape (start stop : List Int) : List Nat :=
  List.zipWith (fun a b => (b - a).toNat) start stop

/-- Modelled from the spec: metalayer format version of the serialized shape
descriptor (starts from 0, must not exceed 127). -/
def CATERVA_METALAYER_VERSION : Nat := 0

/-- Big-endian byte string of width `w` for a natural number. -/
def bytesBE : Nat → Nat → List Nat
  | 0, _ => []
  | w + 1, n => n / 256 ^ w :: bytesBE w (n % 256 ^ w)

/-- Value of a big-endian byte string. -/
def readBE : List Nat → Nat
  | [] => 0
  | b :: bs => b * 256 ^ bs.length + readBE bs

/-- Modelled from the spec: the body of `caterva_serialize_meta` is missing
from the sources (only its declaration is present); the spec describes a
compact self-delimiting integer encoding fitting dimensions up to
`2^63 - 1` and chunk/block extents up to `2^31 - 1`.  Each value is encoded
as a tag byte followed by a fixed-width big-endian payload: tag `0xd3` with
eight bytes for the 64-bit shape entries, tag `0xd2` with four bytes for the
32-bit chunk and block entries. -/
def serializeVals (tag w : Nat) (vals : List Nat) : List Nat :=
  (vals.map (fun v => tag :: bytesBE w v)).flatten

/-- Parse `count` tagged fixed-width values, returning the values and the
remaining bytes; fails on a wrong tag or truncated input. -/
def parseVals (tag w : Nat) : Nat → List Nat → Option (List Nat × List Nat)
  | 0, rest => some ([], rest)
  | count + 1, bytes =>
    match bytes with
    | [] => none
    | t :: rest =>
      if t = tag ∧ w ≤ rest.length then
        match parseVals tag w count (rest.drop w) with
        | some (vs, rest2) => some (readBE (rest.take w) :: vs, rest2)
        | none => none
      else none

/-- Modelled from the spec: `caterva_serialize_meta` (body missing from the
sources).  Payload: version byte, `ndim` byte, then the `shape`,
`chunkshape` and `blockshape` vectors truncated to `ndim` entries, each
entry tagged and big-endian as described at `serializeVals`. -/
def caterva_serialize_meta (ndim : Nat) (shape chunkshape blockshape : List Nat) : List Nat :=
  CATERVA_METALAYER_VERSION :: ndim ::
    (serializeVals 0xd3 8 (shape.take ndim) ++
      serializeVals 0xd2 4 (chunkshape.take ndim) ++
      serializeVals 0xd2 4 (blockshape.take ndim))

/-- Modelled from the spec: `caterva_deserialize_meta` (body missing from the
sources).  Fails cleanly (`none`) on truncated or version-incompatible
input; otherwise returns `(ndim, shape, chunkshape, blockshape)`. -/
def caterva_deserialize_meta (smeta : List Nat) :
    Option (Nat × List Nat × List Nat × List Nat) :=
  match smeta with
  | version :: ndim :: rest =>
    if version = CATERVA_METALAYER_VERSION ∧ 1 ≤ ndim ∧ ndim ≤ 8 then
      match parseVals 0xd3 8 ndim rest with
      | some (shape, r1) =>
        match parseVals 0xd2 4 ndim r1 with
        | some (chunkshape, r2) =>
          match parseVals 0xd2 4 ndim r2 with
          | some (blockshape, _) => some (ndim, shape, chunkshape, blockshape)
          | none => none
        | none => none
      | none => none
    else none
  | _ => none

/-- Decidable equality of results, so that witnesses can be evaluated on
concrete inputs. -/
instance instDecEqExcept {ε α : Type} [DecidableEq ε] [DecidableEq α] :
    DecidableEq (Except ε α) := fun x y =>
  match x, y with
  | Except.ok a, Except.ok b =>
    decidable_of_iff (a = b)
      (by constructor
          · intro h; rw [h]
          · intro h; injection h)
  | Except.error e, Except.error f =>
    decidable_of_iff (e = f)
      (by constructor
          · intro h; rw [h]
          · intro h; injection h)
  | Except.ok _, Except.error _ => isFalse (fun hc => Except.noConfusion hc)
  | Except.error _, Except.ok _ => isFalse (fun hc => Except.noConfusion hc)

/-- Modelled from the spec: the error kinds surfaced by the core. -/
inductive CatervaError
  | InvalidShape
  | OutOfBounds
  | BadBufferSize
  | BadAxis
  | NotSqueezable
  | NotCaterva
  | StoreError
  | OOM
  deriving DecidableEq

/-- Modelled from the spec: the Blosc storage parameters (`blosc2_storage`),
an external collaborator.  Only the per-element `typesize` (drawn from the
compression parameters) is interpreted by the core; `rest` stands for all
remaining storage parameters, which the core passes through untouched. -/
structure blosc2_storage where
  typesize : Nat
  rest : Nat
  deriving DecidableEq

/-- Modelled from the spec: a metalayer, a named byte blob attached to the
compressed store. -/
structure blosc2_metalayer where
  name : Nat
  content : List Nat
  deriving DecidableEq

/-- General parameters needed for the creation of a caterva array
(`caterva_context_t` of the header): dimensions, the three shape vectors,
the Blosc storage properties and the desired metalayers. -/
structure caterva_context_t where
  ndim : Nat
  shape : List Nat
  chunkshape : List Nat
  blockshape : List Nat
  b2_storage : blosc2_storage
  metalayers : List blosc2_metalayer
  nmetalayers : Nat
  deriving DecidableEq

/-- A multidimensional array of data that can be compressed
(`caterva_array_t` of the header).  The super-chunk is modelled by the list
of decompressed chunk payloads (`chunks`) plus the cached `typesize`; all
other fields mirror the C struct.  Shape vectors hold the `ndim` used
entries (the C struct pads them to 8 entries; entries beyond `ndim` are
unused per the spec). -/
structure caterva_array_t where
  shape : List Nat
  chunkshape : List Nat
  extshape : List Nat
  blockshape : List Nat
  extchunkshape : List Nat
  nitems : Nat
  chunknitems : Nat
  extnitems : Nat
  blocknitems : Nat
  extchunknitems : Nat
  ndim : Nat
  typesize : Nat
  chunk_cache : Option (Nat × List Nat)
  item_array_strides : List Nat
  item_chunk_strides : List Nat
  item_extchunk_strides : List Nat
  item_block_strides : List Nat
  block_chunk_strides : List Nat
  chunk_array_strides : List Nat
  chunks : List (List Nat)
  deriving DecidableEq

/-- Modelled from the spec: validation of a construction context, data-model
invariants 1 and 2 (`1 ≤ ndim ≤ 8`, positive extents, block inside chunk);
failure surfaces as `InvalidShape`. -/
def validCtx (ctx : caterva_context_t) : Bool :=
  decide (1 ≤ ctx.ndim) && decide (ctx.ndim ≤ 8) &&
  decide (ctx.shape.length = ctx.ndim) &&
  decide (ctx.chunkshape.length = ctx.ndim) &&
  decide (ctx.blockshape.length = ctx.ndim) &&
  axPos ctx.shape && axPos ctx.chunkshape && axPos ctx.blockshape &&
  axLe ctx.blockshape ctx.chunkshape

/-- Payload of chunk number `k` (row-major over the chunk grid) built from
the logical contents `f`: positions holding an item of the logical array
carry that item, padding positions (outside `shape` or in the block padding
of the chunk) carry zero.  This is the region kernel specialised to a full
chunk, the only path by which user bytes enter chunks. -/
def chunkPayload (shape cs bs : List Nat) (k : Nat) (f : List Nat → Nat) : List Nat :=
  (List.range (axMul (axCeilDiv cs bs) bs).prod).map (fun p =>
    let r := intraChunkCoord bs (axCeilDiv cs bs) p
    let g := axAdd (axMul (toCoord (axCeilDiv shape cs) k) cs) r
    if axLt r cs && axLt g shape then f g else 0)

/-- The full chunk list of an array whose logical contents are `f`. -/
def packChunks (shape cs bs : List Nat) (f : List Nat → Nat) : List (List Nat) :=
  (List.range (axCeilDiv shape cs).prod).map (fun k => chunkPayload shape cs bs k f)

/-- Build an array descriptor with all derived shapes, counts and strides
computed as the spec documents, holding the logical contents `f`. -/
def buildArray (shape cs bs : List Nat) (ts : Nat) (f : List Nat → Nat) : caterva_array_t :=
  { shape := shape
    chunkshape := cs
    extshape := axMul (axCeilDiv shape cs) cs
    blockshape := bs
    extchunkshape := axMul (axCeilDiv cs bs) bs
    nitems := shape.prod
    chunknitems := cs.prod
    extnitems := (axMul (axCeilDiv shape cs) cs).prod
    blocknitems := bs.prod
    extchunknitems := (axMul (axCeilDiv cs bs) bs).prod
    ndim := shape.length
    typesize := ts
    chunk_cache := none
    item_array_strides := strides shape
    item_chunk_strides := strides cs
    item_extchunk_strides := strides (axMul (axCeilDiv cs bs) bs)
    item_block_strides := strides bs
    block_chunk_strides := strides (axCeilDiv cs bs)
    chunk_array_strides := strides (axCeilDiv shape cs)
    chunks := packChunks shape cs bs f }

/-- Read the item at logical coordinate `g`: locate the chunk covering `g`
on the chunk grid and the payload position of the intra-chunk coordinate. -/
def getItem (A : caterva_array_t) (g : List Nat) : Nat :=
  (A.chunks.getD (fromCoord (axCeilDiv A.shape A.chunkshape) (axDiv g A.chunkshape)) []).getD
    (intraChunkOffset A.blockshape (axCeilDiv A.chunkshape A.blockshape) (axMod g A.chunkshape)) 0

/-- The row-major logical contents of an array, one entry per item. -/
def toBufferList (A : caterva_array_t) : List Nat :=
  (List.range A.nitems).map (fun o => getItem A (toCoord A.shape o))

/-- Mark the single-slot chunk cache empty; the spec has every write path
invalidate the cache before touching any chunk. -/
def invalidateCache (A : caterva_array_t) : caterva_array_t :=
  { A with chunk_cache := none }

/-- Modelled from the spec: the data-model invariants of section 3, always
true after any public operation returns success: dimension bounds, positive
extents with blocks inside chunks, derived shapes and item counts, the six
stride vectors as documented products, the chunk count reported by the
store, fixed chunk payload sizes, and the chunk cache either empty or
holding exactly one named chunk of the documented byte size. -/
def invariantsB (A : caterva_array_t) : Bool :=
  decide (1 ≤ A.ndim) && decide (A.ndim ≤ 8) &&
  decide (A.shape.length = A.ndim) &&
  decide (A.chunkshape.length = A.ndim) &&
  decide (A.blockshape.length = A.ndim) &&
  axPos A.shape && axPos A.chunkshape && axPos A.blockshape &&
  axLe A.blockshape A.chunkshape &&
  decide (A.extshape = axMul (axCeilDiv A.shape A.chunkshape) A.chunkshape) &&
  decide (A.extchunkshape = axMul (axCeilDiv A.chunkshape A.blockshape) A.blockshape) &&
  decide (A.nitems = A.shape.prod) &&
  decide (A.chunknitems = A.chunkshape.prod) &&
  decide (A.extnitems = A.extshape.prod) &&
  decide (A.blocknitems = A.blockshape.prod) &&
  decide (A.extchunknitems = A.extchunkshape.prod) &&
  decide (A.item_array_strides = strides A.shape) &&
  decide (A.item_chunk_strides = strides A.chunkshape) &&
  decide (A.item_extchunk_strides = strides A.extchunkshape) &&
  decide (A.item_block_strides = strides A.blockshape) &&
  decide (A.block_chunk_strides = strides (axCeilDiv A.chunkshape A.blockshape)) &&
  decide (A.chunk_array_strides = strides (axCeilDiv A.shape A.chunkshape)) &&
  decide (A.chunks.length = (axCeilDiv A.shape A.chunkshape).prod) &&
  A.chunks.all (fun ch => decide (ch.length = A.extchunkshape.prod)) &&
  (match A.chunk_cache with
   | none => true
   | some kd => decide (kd.1 < A.chunks.length) &&
       decide (kd.2.length = A.chunknitems * A.typesize))

/-- Modelled from the spec: `caterva_from_buffer` (body missing from the
sources).  Validates the construction context and the buffer size
(`|b| = nitems * typesize`), then copies the buffer in row-major order into
the chunk store through the region kernel. -/
def caterva_from_buffer (ctx : caterva_context_t) (buffer : List Nat) (buffersize : Nat) :
    Except CatervaError caterva_array_t :=
  if ¬ (validCtx ctx = true) then .error .InvalidShape
  else if ¬ (buffersize = ctx.shape.prod * ctx.b2_storage.typesize) then .error .BadBufferSize
  else .ok (buildArray ctx.shape ctx.chunkshape ctx.blockshape ctx.b2_storage.typesize
    (fun g => buffer.getD (fromCoord ctx.shape g) 0))

/-- Modelled from the spec: `caterva_to_buffer` (body missing from the
sources).  Validates the buffer size against `nitems * typesize` and
extracts the logical contents in row-major order, clipping to `shape` so
padding is never emitted. -/
def caterva_to_buffer (A : caterva_array_t) (buffersize : Nat) :
    Except CatervaError (List Nat) :=
  if ¬ (buffersize = A.nitems * A.typesize) then .error .BadBufferSize
  else .ok (toBufferList A)

/-- Does chunk number `k` intersect the half-open region `[start, stop)`?
Part of the lazy region enumeration `region_covers` of the index algebra. -/
def chunkIntersects (shape cs : List Nat) (start stop : List Int) (k : Nat) : Bool :=
  axLt (axMax (start.map Int.toNat) (axMul (toCoord (axCeilDiv shape cs) k) cs))
       (axMin (stop.map Int.toNat)
         (axMul (axAdd (toCoord (axCeilDiv shape cs) k) (List.replicate shape.length 1)) cs))

/-- Modelled from the spec: the chunks enumerated by `region_covers` for the
region `[start, stop)`: the chunk numbers whose box intersects the region. -/
def regionChunkList (shape cs : List Nat) (start stop : List Int) : List Nat :=
  (List.range (axCeilDiv shape cs).prod).filter (chunkIntersects shape cs start stop)

/-- New payload of chunk `k` after writing `buffer` (laid out row-major over
the region extents) into the region `[startN, stopN)`: region positions take
buffer items, all other positions (including padding, which the spec says a
write preserves) keep their previous bytes. -/
def setRegionChunk (shape cs bs : List Nat) (buffer : List Nat) (startN stopN : List Nat)
    (k : Nat) (old : List Nat) : List Nat :=
  (List.range (axMul (axCeilDiv cs bs) bs).prod).map (fun p =>
    let r := intraChunkCoord bs (axCeilDiv cs bs) p
    let g := axAdd (axMul (toCoord (axCeilDiv shape cs) k) cs) r
    if axLt r cs && axLe startN g && axLt g stopN then
      buffer.getD (fromCoord (axSub stopN startN) (axSub g startN)) 0
    else old.getD p 0)

/-- Modelled from the spec: `caterva_get_slice_buffer` (body missing from
the sources).  Rejects with `OutOfBounds` unless
`0 ≤ start[i] ≤ stop[i] ≤ shape[i]` for all axes, then with `BadBufferSize`
on a size mismatch, then returns the region contents row-major over the
region extents. -/
def caterva_get_slice_buffer (A : caterva_array_t) (start stop : List Int)
    (buffershape : List Nat) (buffersize : Nat) : Except CatervaError (List Nat) :=
  if ¬ (sliceBoundsOk A.shape start stop = true) then .error .OutOfBounds
  else if ¬ (buffersize = (sliceShape start stop).prod * A.typesize) then .error .BadBufferSize
  else .ok ((List.range (sliceShape start stop).prod).map (fun o =>
    getItem A (axAdd (start.map Int.toNat) (toCoord (sliceShape start stop) o))))

/-- Modelled from the spec: `caterva_set_slice_buffer` (body missing from
the sources).  Same validation plan as the read path; on success each chunk
enumerated for the region is decompressed, modified and replaced, and the
chunk cache is invalidated.  The pair returned is the error code of the C
call together with the state of the array after the call. -/
def caterva_set_slice_buffer (buffer : List Nat) (buffershape : List Nat) (buffersize : Nat)
    (start stop : List Int) (A : caterva_array_t) :
    Option CatervaError × caterva_array_t :=
  let Ai := invalidateCache A
  if ¬ (sliceBoundsOk A.shape start stop = true) then (some .OutOfBounds, Ai)
  else if ¬ (buffersize = (sliceShape start stop).prod * A.typesize) then (some .BadBufferSize, Ai)
  else
    let newChunks := mapWithIndex (fun k ch =>
      if chunkIntersects A.shape A.chunkshape start stop k then
        setRegionChunk A.shape A.chunkshape A.blockshape buffer
          (start.map Int.toNat) (stop.map Int.toNat) k ch
      else ch) 0 Ai.chunks
    (none, { Ai with chunks := newChunks })

/-- Modelled from the spec: `caterva_squeeze_index` (body missing from the
sources).  Removes the axes marked in `index` from the shape; fails with
`NotSqueezable` when a marked axis has extent greater than one.  The stored
items are unchanged; the descriptor and tiling are recomputed over the
surviving axes. -/
def caterva_squeeze_index (A : caterva_array_t) (index : List Bool) :
    Option CatervaError × caterva_array_t :=
  let Ai := invalidateCache A
  if (List.range A.ndim).any
      (fun i => index.getD i false && decide (1 < A.shape.getD i 0)) then
    (some .NotSqueezable, Ai)
  else
    (none, buildArray (squeezeAxes index A.shape) (squeezeAxes index A.chunkshape)
      (squeezeAxes index A.blockshape) A.typesize
      (fun g => getItem A (unsqueezeCoord index g)))

/-- Modelled from the spec: `caterva_squeeze` (body missing from the
sources): remove every single-dimensional entry from the shape. -/
def caterva_squeeze (A : caterva_array_t) : Option CatervaError × caterva_array_t :=
  caterva_squeeze_index A (A.shape.map (fun n => decide (n = 1)))

/-- Modelled from the spec: `caterva_resize` (body missing from the
sources).  Changes `shape[i]` to `new_shape[i]`, applying the change at
position `start[i]`: growing inserts uninitialized items there (modelled as
zero bytes), shrinking removes the items there.  Chunk and block shapes are
untouched; all derived shapes and strides are recomputed.  Fails with
`BadAxis` on inconsistent resize parameters. -/
def caterva_resize (A : caterva_array_t) (new_shape start : List Int) :
    Option CatervaError × caterva_array_t :=
  let Ai := invalidateCache A
  if ¬ (resizeChecksOk A.shape new_shape start = true) then (some .BadAxis, Ai)
  else
    let sn := new_shape.map Int.toNat
    let st := start.map Int.toNat
    (none, buildArray sn A.chunkshape A.blockshape A.typesize
      (fun g => match resizeSrcCoord A.shape sn st g with
        | some gsrc => getItem A gsrc
        | none => 0))

/-- Byte count of one hyperslab orthogonal to `axis`: the unit by which the
given axis grows on an insert or append. -/
def rowBytesOf (A : caterva_array_t) (axis : Nat) : Nat :=
  (A.shape.take axis ++ A.shape.drop (axis + 1)).prod * A.typesize

/-- New shape vector (as passed to resize) of an insert of `k` items along
`axis`. -/
def insertNewShape (A : caterva_array_t) (axis k : Nat) : List Int :=
  (A.shape.set axis (A.shape.getD axis 0 + k)).map (Nat.cast : Nat → Int)

/-- Start vector of a resize whose change is applied at position `q` of
`axis` and at position zero of every other axis. -/
def axisStartV (A : caterva_array_t) (axis q : Nat) : List Int :=
  ((List.replicate A.ndim 0).set axis q).map (Nat.cast : Nat → Int)

/-- Stop vector of the freshly allocated region of an insert of `k` items
at position `q` along `axis`. -/
def insertRegionStop (A : caterva_array_t) (axis q k : Nat) : List Int :=
  (A.shape.set axis (q + k)).map (Nat.cast : Nat → Int)

/-- Modelled from the spec: `caterva_insert` (body missing from the
sources): resize-grow by `k = buffersize / rowbytes` items at position
`insert_start` along `axis`, followed by a region write of the buffer into
the newly allocated region.  Fails with `BadAxis` on a bad axis or
position, with `BadBufferSize` when the buffer does not hold a whole number
of hyperslabs of the extended axis. -/
def caterva_insert (A : caterva_array_t) (buffer : List Nat) (buffersize : Nat)
    (axis : Nat) (insert_start : Int) : Option CatervaError × caterva_array_t :=
  if ¬ (axis < A.ndim) then (some .BadAxis, invalidateCache A)
  else if ¬ (0 ≤ insert_start ∧ insert_start ≤ (A.shape.getD axis 0 : Int)) then
    (some .BadAxis, invalidateCache A)
  else if ¬ (0 < rowBytesOf A axis ∧ buffersize % rowBytesOf A axis = 0) then
    (some .BadBufferSize, invalidateCache A)
  else
    match caterva_resize A
        (insertNewShape A axis (buffersize / rowBytesOf A axis))
        (axisStartV A axis insert_start.toNat) with
    | (some e, _) => (some e, invalidateCache A)
    | (none, A1) =>
      match caterva_set_slice_buffer buffer
          (sliceShape (axisStartV A axis insert_start.toNat)
            (insertRegionStop A axis insert_start.toNat (buffersize / rowBytesOf A axis)))
          buffersize (axisStartV A axis insert_start.toNat)
          (insertRegionStop A axis insert_start.toNat (buffersize / rowBytesOf A axis))
          A1 with
      | (some e, _) => (some e, invalidateCache A)
      | (none, A2) => (none, A2)

/-- Modelled from the spec: `caterva_append` (body missing from the
sources): shorthand for an insert at the far end of `axis`. -/
def caterva_append (A : caterva_array_t) (buffer : List Nat) (buffersize : Nat)
    (axis : Nat) : Option CatervaError × caterva_array_t :=
  caterva_insert A buffer buffersize axis (A.shape.getD axis 0 : Int)

/-- Modelled from the spec: `caterva_delete` (body missing from the
sources): resize-shrink along `axis`, removing the items
`[delete_start, delete_start + delete_len)`. -/
def caterva_delete (A : caterva_array_t) (axis : Nat)
    (delete_start delete_len : Int) : Option CatervaError × caterva_array_t :=
  if ¬ (axis < A.ndim) then (some .BadAxis, invalidateCache A)
  else if ¬ (0 ≤ delete_start ∧ 0 ≤ delete_len ∧
      delete_start + delete_len ≤ (A.shape.getD axis 0 : Int)) then
    (some .BadAxis, invalidateCache A)
  else
    caterva_resize A
      ((A.shape.set axis (A.shape.getD axis 0 - delete_len.toNat)).map
        (Nat.cast : Nat → Int))
      (axisStartV A axis delete_start.toNat)

/-- Modelled from the spec: `caterva_copy` (body missing from the sources).
The ndim and shape in the context are overwritten by the ones of the
source (as the header documents); the new array reuses the chunk and block
shapes of the context, so a copy retiles the data.  Returns the context as
updated by the call together with the new array. -/
def caterva_copy (ctx : caterva_context_t) (src : caterva_array_t) :
    Except CatervaError (caterva_context_t × caterva_array_t) :=
  let ctx2 := { ctx with ndim := src.ndim, shape := src.shape }
  if ¬ (validCtx ctx2 = true) then .error .InvalidShape
  else .ok (ctx2, buildArray src.shape ctx.chunkshape ctx.blockshape src.typesize
    (fun g => getItem src g))

/-- Modelled from the spec: `caterva_get_slice` (body missing from the
sources).  Creates a new array of shape `stop - start` tiled per the
context, filled from the region of the source; the ndim and shape of the
context are overwritten by the ndim of the source and `stop - start` (as
the header documents). -/
def caterva_get_slice (ctx : caterva_context_t) (src : caterva_array_t)
    (start stop : List Int) :
    Except CatervaError (caterva_context_t × caterva_array_t) :=
  if ¬ (sliceBoundsOk src.shape start stop = true) then .error .OutOfBounds
  else
    let ctx2 := { ctx with ndim := src.ndim, shape := sliceShape start stop }
    if ¬ (validCtx ctx2 = true) then .error .InvalidShape
    else .ok (ctx2, buildArray (sliceShape start stop) ctx.chunkshape ctx.blockshape
      src.typesize (fun g => getItem src (axAdd (start.map Int.toNat) g)))

/-- Modelled from the spec: `caterva_get_orthogonal_selection` (body missing
from the sources).  The addressed region is the outer product of the
per-axis index lists; the result is laid out as a dense array of shape
`selection_size`.  Rejects out-of-range indices with `OutOfBounds` and a
size mismatch with `BadBufferSize`. -/
def caterva_get_orthogonal_selection (A : caterva_array_t)
    (selection : List (List Nat)) (selection_size : List Nat)
    (buffershape : List Nat) (buffersize : Nat) : Except CatervaError (List Nat) :=
  if ¬ (selValid selection selection_size A.shape = true) then .error .OutOfBounds
  else if ¬ (buffersize = selection_size.prod * A.typesize) then .error .BadBufferSize
  else .ok ((List.range selection_size.prod).map (fun o =>
    getItem A (selCoord selection (toCoord selection_size o))))

/-- Modelled from the spec: `caterva_set_orthogonal_selection` (body missing
from the sources).  Writes the dense buffer into the outer product of the
per-axis index lists; at duplicate indices the write following the
row-major order of the buffer wins, hence each written coordinate takes the
buffer entry of the last selecting tuple. -/
def caterva_set_orthogonal_selection (A : caterva_array_t)
    (selection : List (List Nat)) (selection_size : List Nat) (buffer : List Nat)
    (buffershape : List Nat) (buffersize : Nat) :
    Option CatervaError × caterva_array_t :=
  let Ai := invalidateCache A
  if ¬ (selValid selection selection_size A.shape = true) then (some .OutOfBounds, Ai)
  else if ¬ (buffersize = selection_size.prod * A.typesize) then (some .BadBufferSize, Ai)
  else
    (none, buildArray A.shape A.chunkshape A.blockshape A.typesize
      (fun g => match selLastIdx selection g with
        | some js => buffer.getD (fromCoord selection_size js) 0
        | none => getItem A g))

/-- Concrete construction context used by witnesses: a 2 x 3 array of
1-byte items with 2 x 2 chunks and 1 x 2 blocks. -/
def ctxW : caterva_context_t :=
  { ndim := 2, shape := [2, 3], chunkshape := [2, 2], blockshape := [1, 2],
    b2_storage := { typesize := 1, rest := 0 }, metalayers := [], nmetalayers := 0 }

/-- Concrete 6-item data buffer used by witnesses. -/
def bufW : List Nat := [10, 11, 12, 13, 14, 15]

/-- Concrete array used by witnesses: `bufW` shaped per `ctxW`. -/
def arrW : caterva_array_t :=
  buildArray ctxW.shape ctxW.chunkshape ctxW.blockshape ctxW.b2_storage.typesize
    (fun g => bufW.getD (fromCoord ctxW.shape g) 0)

/-- Concrete one-axis array with a singleton axis, used by witnesses. -/
def arrW2 : caterva_array_t :=
  buildArray [1, 3] [1, 2] [1, 1] 1 (fun g => 20 + (fromCoord [1, 3] g))

/-- Concrete all-singleton one-dimensional array, the counterexample input
for the squeeze edge case. -/
def arrW3 : caterva_array_t :=
  buildArray [1] [1] [1] 1 (fun _ => 7)

/-- Concrete context with a different tiling of the same 2 x 3 shape, used
to exercise copy-with-retiling. -/
def ctxRetile : caterva_context_t :=
  { ndim := 2, shape := [2, 3], chunkshape := [2, 3], blockshape := [2, 1],
    b2_storage := { typesize := 1, rest := 0 }, metalayers := [], nmetalayers := 0 }

/-- The context value returned by a successful copy of `arrW` under
`ctxRetile` (ndim and shape overwritten by the source). -/
def ctxCopyOut : caterva_context_t :=
  { ctxRetile with ndim := arrW.ndim, shape := arrW.shape }

/-- The array produced by a successful copy of `arrW` under `ctxRetile`. -/
def arrCopyOut : caterva_array_t :=
  buildArray arrW.shape ctxRetile.chunkshape ctxRetile.blockshape arrW.typesize
    (fun g => getItem arrW g)

end Caterva

namespace Caterva

theorem axLt_length : ∀ {a b : List Nat}, axLt a b = true → a.length = b.length
  | [], [], _ => rfl
  | a :: as, b :: bs, h => by
    simp only [axLt, Bool.and_eq_true] at h
    simp [axLt_length h.2]
  | [], _ :: _, h => by simp [axLt] at h
  | _ :: _, [], h => by simp [axLt] at h

theorem axLe_length : ∀ {a b : List Nat}, axLe a b = true → a.length = b.length
  | [], [], _ => rfl
  | a :: as, b :: bs, h => by
    simp only [axLe, Bool.and_eq_true] at h
    simp [axLe_length h.2]
  | [], _ :: _, h => by simp [axLe] at h
  | _ :: _, [], h => by simp [axLe] at h

theorem toCoord_length (es : List Nat) (o : Nat) : (toCoord es o).length = es.length := by
  induction es generalizing o with
  | nil => rfl
  | cons e es ih => simp [toCoord, ih]

theorem axPos_prod_pos {l : List Nat} (h : axPos l = true) : 0 < l.prod := by
  apply List.prod_pos
  intro a ha
  simp only [axPos, List.all_eq_true, decide_eq_true_eq] at h
  exact h a ha

theorem fromCoord_toCoord : ∀ (es : List Nat) (o : Nat), o < es.prod →
    fromCoord es (toCoord es o) = o
  | [], o, h => by simp [List.prod_nil] at h; simp [toCoord, fromCoord, h]
  | e :: es, o, h => by
    have hp : 0 < es.prod := by
      rcases Nat.eq_zero_or_pos es.prod with h0 | h0
      · rw [List.prod_cons, h0, Nat.mul_zero] at h; omega
      · exact h0
    have hmod : o % es.prod < es.prod := Nat.mod_lt _ hp
    simp only [toCoord, fromCoord]
    rw [fromCoord_toCoord es (o % es.prod) hmod]
    rw [Nat.mul_comm]
    exact Nat.div_add_mod o es.prod

theorem axLt_toCoord : ∀ (es : List Nat) (o : Nat), o < es.prod →
    axLt (toCoord es o) es = true
  | [], o, _ => rfl
  | e :: es, o, h => by
    have hp : 0 < es.prod := by
      rcases Nat.eq_zero_or_pos es.prod with h0 | h0
      · rw [List.prod_cons, h0, Nat.mul_zero] at h; omega
      · exact h0
    have hdiv : o / es.prod < e := by
      rw [Nat.div_lt_iff_lt_mul hp]
      rw [List.prod_cons] at h
      omega
    simp only [toCoord, axLt, Bool.and_eq_true, decide_eq_true_eq]
    exact ⟨hdiv, axLt_toCoord es (o % es.prod) (Nat.mod_lt _ hp)⟩

theorem fromCoord_lt : ∀ (es cs : List Nat), axLt cs es = true →
    fromCoord es cs < es.prod
  | [], [], _ => by simp [fromCoord]
  | e :: es, c :: cs, h => by
    simp only [axLt, Bool.and_eq_true, decide_eq_true_eq] at h
    have ih := fromCoord_lt es cs h.2
    simp only [fromCoord, List.prod_cons]
    calc c * es.prod + fromCoord es cs < c * es.prod + es.prod := by omega
      _ = (c + 1) * es.prod := by ring
      _ ≤ e * es.prod := Nat.mul_le_mul_right _ h.1
  | [], _ :: _, h => by simp [axLt] at h
  | _ :: _, [], h => by simp [axLt] at h

theorem toCoord_fromCoord : ∀ (es cs : List Nat), axLt cs es = true →
    toCoord es (fromCoord es cs) = cs
  | [], [], _ => rfl
  | e :: es, c :: cs, h => by
    simp only [axLt, Bool.and_eq_true, decide_eq_true_eq] at h
    have hlt : fromCoord es cs < es.prod := fromCoord_lt es cs h.2
    have hp : 0 < es.prod := Nat.lt_of_le_of_lt (Nat.zero_le _) hlt
    simp only [toCoord, fromCoord, List.cons.injEq]
    refine ⟨?_, ?_⟩
    · rw [Nat.add_comm, Nat.add_mul_div_right _ _ hp, Nat.div_eq_of_lt hlt]
      omega
    · rw [Nat.add_comm, Nat.add_mul_mod_self_right, Nat.mod_eq_of_lt hlt]
      exact toCoord_fromCoord es cs h.2
  | [], _ :: _, h => by simp [axLt] at h
  | _ :: _, [], h => by simp [axLt] at h

theorem getD_range_map {α : Type} (n k : Nat) (F : Nat → α) (d : α) (h : k < n) :
    ((List.range n).map F).getD k d = F k := by
  have hl : k < ((List.range n).map F).length := by simpa using h
  rw [List.getD_eq_getElem _ d hl]
  simp

theorem map_getD_range {α : Type} (l : List α) (d : α) :
    (List.range l.length).map (fun o => l.getD o d) = l := by
  apply List.ext_getElem (by simp)
  intro i h1 h2
  have hi : i < l.length := h2
  simp [List.getD_eq_getElem _ d hi, List.getElem?_eq_getElem hi]

theorem getD_set (l : List Nat) (i j v d : Nat) :
    (l.set i v).getD j d = if i = j ∧ j < l.length then v else l.getD j d := by
  by_cases hj : j < l.length
  · by_cases hij : i = j
    · subst hij
      rw [List.getD_eq_getElem _ d (by simpa using hj)]
      simp [List.getElem_set_self, hj]
    · rw [List.getD_eq_getElem _ d (by simpa using hj),
        List.getElem_set_of_ne hij, List.getD_eq_getElem _ d hj]
      simp [hij]
  · have h1 : l.length ≤ j := by omega
    rw [List.getD_eq_default _ _ (by simpa using h1), List.getD_eq_default _ _ h1]
    simp [hj]

theorem getD_replicate (n i a d : Nat) :
    (List.replicate n a).getD i d = if i < n then a else d := by
  by_cases h : i < n
  · rw [List.getD_eq_getElem _ d (by simpa using h)]
    simp [h]
  · rw [List.getD_eq_default _ _ (by simpa using h)]
    simp [h]

theorem getD_zipWith (f : Nat → Nat → Nat) (a b : List Nat) (i : Nat)
    (ha : i < a.length) (hb : i < b.length) :
    (List.zipWith f a b).getD i 0 = f (a.getD i 0) (b.getD i 0) := by
  rw [List.getD_eq_getElem _ 0 (by simp [List.length_zipWith]; omega),
    List.getD_eq_getElem _ 0 ha, List.getD_eq_getElem _ 0 hb]
  simp

theorem axLt_iff : ∀ (a b : List Nat), axLt a b = true ↔
    (a.length = b.length ∧ ∀ i, i < a.length → a.getD i 0 < b.getD i 0)
  | [], [] => by simp [axLt]
  | [], _ :: _ => by simp [axLt]
  | _ :: _, [] => by simp [axLt]
  | a :: as, b :: bs => by
    simp only [axLt, Bool.and_eq_true, decide_eq_true_eq, axLt_iff as bs]
    constructor
    · rintro ⟨h1, h2, h3⟩
      refine ⟨by simp [h2], ?_⟩
      intro i hi
      cases i with
      | zero => simpa using h1
      | succ n => simpa using h3 n (by simpa using hi)
    · rintro ⟨h1, h2⟩
      refine ⟨by simpa using h2 0 (by simp), by simpa using h1, ?_⟩
      intro i hi
      simpa using h2 (i + 1) (by simpa using hi)

theorem axLe_iff : ∀ (a b : List Nat), axLe a b = true ↔
    (a.length = b.length ∧ ∀ i, i < a.length → a.getD i 0 ≤ b.getD i 0)
  | [], [] => by simp [axLe]
  | [], _ :: _ => by simp [axLe]
  | _ :: _, [] => by simp [axLe]
  | a :: as, b :: bs => by
    simp only [axLe, Bool.and_eq_true, decide_eq_true_eq, axLe_iff as bs]
    constructor
    · rintro ⟨h1, h2, h3⟩
      refine ⟨by simp [h2], ?_⟩
      intro i hi
      cases i with
      | zero => simpa using h1
      | succ n => simpa using h3 n (by simpa using hi)
    · rintro ⟨h1, h2⟩
      refine ⟨by simpa using h2 0 (by simp), by simpa using h1, ?_⟩
      intro i hi
      simpa using h2 (i + 1) (by simpa using hi)

theorem axPos_iff : ∀ (l : List Nat), axPos l = true ↔
    ∀ i, i < l.length → 0 < l.getD i 0
  | [] => by simp [axPos]
  | a :: as => by
    simp only [axPos, List.all_cons, Bool.and_eq_true, decide_eq_true_eq]
    rw [show (as.all fun x => decide (0 < x)) = axPos as from rfl, axPos_iff as]
    constructor
    · rintro ⟨h1, h2⟩
      intro i hi
      cases i with
      | zero => simpa using h1
      | succ n => simpa using h2 n (by simpa using hi)
    · intro h
      refine ⟨by simpa using h 0 (by simp), ?_⟩
      intro i hi
      simpa using h (i + 1) (by simpa using hi)

theorem axDivMod_recompose : ∀ (g c : List Nat), g.length = c.length → axPos c = true →
    axAdd (axMul (axDiv g c) c) (axMod g c) = g
  | [], [], _, _ => rfl
  | g :: gs, c :: cs, hl, hp => by
    simp only [axPos, List.all_cons, Bool.and_eq_true, decide_eq_true_eq] at hp
    simp only [axDiv, axMod, axMul, axAdd, List.zipWith_cons_cons, List.cons.injEq]
    refine ⟨?_, axDivMod_recompose gs cs (by simpa using hl) hp.2⟩
    rw [Nat.mul_comm]
    exact Nat.div_add_mod g c
  | [], _ :: _, hl, _ => by simp at hl
  | _ :: _, [], hl, _ => by simp at hl

theorem axLt_axMod : ∀ (g c : List Nat), g.length = c.length → axPos c = true →
    axLt (axMod g c) c = true
  | [], [], _, _ => rfl
  | g :: gs, c :: cs, hl, hp => by
    simp only [axPos, List.all_cons, Bool.and_eq_true, decide_eq_true_eq] at hp
    simp only [axMod, List.zipWith_cons_cons, axLt, Bool.and_eq_true, decide_eq_true_eq]
    exact ⟨Nat.mod_lt _ hp.1, axLt_axMod gs cs (by simpa using hl) hp.2⟩
  | [], _ :: _, hl, _ => by simp at hl
  | _ :: _, [], hl, _ => by simp at hl

theorem axLt_axDiv_ceil : ∀ (g s c : List Nat), axLt g s = true → axPos c = true →
    s.length = c.length → axLt (axDiv g c) (axCeilDiv s c) = true
  | [], [], [], _, _, _ => rfl
  | g :: gs, s :: ss, c :: cs, hg, hp, hl => by
    simp only [axPos, List.all_cons, Bool.and_eq_true, decide_eq_true_eq] at hp
    simp only [axLt, Bool.and_eq_true, decide_eq_true_eq] at hg
    simp only [axDiv, axCeilDiv, List.zipWith_cons_cons, axLt, Bool.and_eq_true,
      decide_eq_true_eq]
    refine ⟨?_, axLt_axDiv_ceil gs ss cs hg.2 hp.2 (by simpa using hl)⟩
    have hs1 : 1 ≤ s := by omega
    have he : s + c - 1 = (s - 1) + c := by omega
    rw [he, Nat.add_div_right _ hp.1]
    have hle : g / c ≤ (s - 1) / c := Nat.div_le_div_right (by omega)
    omega
  | [], [], _ :: _, _, _, hl => by simp at hl
  | [], _ :: _, _, hg, _, _ => by simp [axLt] at hg
  | _ :: _, [], _, hg, _, _ => by simp [axLt] at hg
  | _ :: _, _ :: _, [], _, _, hl => by simp at hl

theorem axLe_ceil_mul : ∀ (a b : List Nat), a.length = b.length → axPos b = true →
    axLe a (axMul (axCeilDiv a b) b) = true
  | [], [], _, _ => rfl
  | a :: as, b :: bs, hl, hp => by
    simp only [axPos, List.all_cons, Bool.and_eq_true, decide_eq_true_eq] at hp
    simp only [axCeilDiv, axMul, List.zipWith_cons_cons, axLe, Bool.and_eq_true,
      decide_eq_true_eq]
    refine ⟨?_, axLe_ceil_mul as bs (by simpa using hl) hp.2⟩
    rcases Nat.eq_zero_or_pos a with h0 | h1
    · omega
    have he : a + b - 1 = (a - 1) + b := by omega
    rw [he, Nat.add_div_right _ hp.1]
    have hdm := Nat.div_add_mod (a - 1) b
    have hmlt : (a - 1) % b < b := Nat.mod_lt _ hp.1
    have hr : ((a - 1) / b + 1) * b = b * ((a - 1) / b) + b := by ring
    omega
  | [], _ :: _, hl, _ => by simp at hl
  | _ :: _, [], hl, _ => by simp at hl

theorem axLt_axLe_trans : ∀ {a b c : List Nat}, axLt a b = true → axLe b c = true →
    axLt a c = true
  | [], [], [], _, _ => rfl
  | a :: as, b :: bs, c :: cs, h1, h2 => by
    simp only [axLt, axLe, Bool.and_eq_true, decide_eq_true_eq] at h1 h2 ⊢
    exact ⟨by omega, axLt_axLe_trans h1.2 h2.2⟩
  | [], [], _ :: _, _, h2 => by simp [axLe] at h2
  | [], _ :: _, _, h1, _ => by simp [axLt] at h1
  | _ :: _, [], _, h1, _ => by simp [axLt] at h1
  | _ :: _, _ :: _, [], _, h2 => by simp [axLe] at h2

theorem prod_axMul : ∀ (a b : List Nat), a.length = b.length →
    (axMul a b).prod = a.prod * b.prod
  | [], [], _ => by simp [axMul]
  | a :: as, b :: bs, hl => by
    simp only [axMul, List.zipWith_cons_cons, List.prod_cons]
    rw [show List.zipWith (fun x y => x * y) as bs = axMul as bs from rfl,
      prod_axMul as bs (by simpa using hl)]
    ring
  | [], _ :: _, hl => by simp at hl
  | _ :: _, [], hl => by simp at hl

theorem axLt_axDiv_of_axLt_mul : ∀ (r bgrid bs : List Nat),
    axLt r (axMul bgrid bs) = true → axPos bs = true → bgrid.length = bs.length →
    axLt (axDiv r bs) bgrid = true
  | [], [], [], _, _, _ => rfl
  | r :: rs, g :: gs, b :: bs, hr, hp, hl => by
    simp only [axPos, List.all_cons, Bool.and_eq_true, decide_eq_true_eq] at hp
    simp only [axMul, List.zipWith_cons_cons, axLt, Bool.and_eq_true,
      decide_eq_true_eq] at hr
    simp only [axDiv, List.zipWith_cons_cons, axLt, Bool.and_eq_true, decide_eq_true_eq]
    refine ⟨?_, axLt_axDiv_of_axLt_mul rs gs bs hr.2 hp.2 (by simpa using hl)⟩
    rw [Nat.div_lt_iff_lt_mul hp.1]
    exact hr.1
  | [], [], _ :: _, _, _, hl => by simp at hl
  | [], _ :: _, [], _, _, hl => by simp at hl
  | [], _ :: _, _ :: _, hr, _, _ => by
    simp [axLt, axMul, List.zipWith_cons_cons] at hr
  | _ :: _, [], [], hr, _, _ => by simp [axLt, axMul] at hr
  | _ :: _, [], _ :: _, _, _, hl => by simp at hl
  | _ :: _, _ :: _, [], _, _, hl => by simp at hl

theorem axLt_mul_length {r bgrid bs : List Nat}
    (hr : axLt r (axMul bgrid bs) = true) (hl : bgrid.length = bs.length) :
    r.length = bs.length := by
  have h := axLt_length hr
  simp only [axMul, List.length_zipWith] at h
  omega

theorem intraChunkOffset_lt (bs bgrid r : List Nat)
    (hr : axLt r (axMul bgrid bs) = true) (hpb : axPos bs = true)
    (hl : bgrid.length = bs.length) :
    intraChunkOffset bs bgrid r < (axMul bgrid bs).prod := by
  have hrl : r.length = bs.length := axLt_mul_length hr hl
  have hq : axLt (axDiv r bs) bgrid = true := axLt_axDiv_of_axLt_mul r bgrid bs hr hpb hl
  have hQ : fromCoord bgrid (axDiv r bs) < bgrid.prod := fromCoord_lt _ _ hq
  have hR : fromCoord bs (axMod r bs) < bs.prod :=
    fromCoord_lt _ _ (axLt_axMod r bs hrl hpb)
  rw [prod_axMul bgrid bs hl]
  unfold intraChunkOffset
  calc fromCoord bgrid (axDiv r bs) * bs.prod + fromCoord bs (axMod r bs)
      < (fromCoord bgrid (axDiv r bs) + 1) * bs.prod := by
        have : (fromCoord bgrid (axDiv r bs) + 1) * bs.prod =
            fromCoord bgrid (axDiv r bs) * bs.prod + bs.prod := by ring
        omega
    _ ≤ bgrid.prod * bs.prod := Nat.mul_le_mul_right _ (by omega)

theorem intraChunkCoord_intraChunkOffset (bs bgrid r : List Nat)
    (hr : axLt r (axMul bgrid bs) = true) (hpb : axPos bs = true)
    (hl : bgrid.length = bs.length) :
    intraChunkCoord bs bgrid (intraChunkOffset bs bgrid r) = r := by
  have hrl : r.length = bs.length := axLt_mul_length hr hl
  have hq : axLt (axDiv r bs) bgrid = true := axLt_axDiv_of_axLt_mul r bgrid bs hr hpb hl
  have hR : fromCoord bs (axMod r bs) < bs.prod :=
    fromCoord_lt _ _ (axLt_axMod r bs hrl hpb)
  unfold intraChunkCoord intraChunkOffset
  rw [Nat.mul_comm (fromCoord bgrid (axDiv r bs)) bs.prod,
    Nat.mul_add_div (axPos_prod_pos hpb), Nat.div_eq_of_lt hR, Nat.add_zero,
    Nat.mul_add_mod, Nat.mod_eq_of_lt hR,
    toCoord_fromCoord bgrid _ hq, toCoord_fromCoord bs _ (axLt_axMod r bs hrl hpb)]
  exact axDivMod_recompose r bs hrl hpb

theorem getItem_buildArray (shape cs bs : List Nat) (ts : Nat) (f : List Nat → Nat)
    (g : List Nat) (hpc : axPos cs = true) (hpb : axPos bs = true)
    (hlc : cs.length = shape.length) (hlb : bs.length = shape.length)
    (hg : axLt g shape = true) :
    getItem (buildArray shape cs bs ts f) g = f g := by
  have hgl : g.length = shape.length := axLt_length hg
  have hq : axLt (axDiv g cs) (axCeilDiv shape cs) = true :=
    axLt_axDiv_ceil g shape cs hg hpc hlc.symm
  have hk : fromCoord (axCeilDiv shape cs) (axDiv g cs) < (axCeilDiv shape cs).prod :=
    fromCoord_lt _ _ hq
  have hbgl : (axCeilDiv cs bs).length = bs.length := by
    simp only [axCeilDiv, List.length_zipWith]
    omega
  have hrmod : axLt (axMod g cs) cs = true := axLt_axMod g cs (by omega) hpc
  have hrext : axLt (axMod g cs) (axMul (axCeilDiv cs bs) bs) = true :=
    axLt_axLe_trans hrmod (axLe_ceil_mul cs bs (by omega) hpb)
  have hp : intraChunkOffset bs (axCeilDiv cs bs) (axMod g cs) <
      (axMul (axCeilDiv cs bs) bs).prod :=
    intraChunkOffset_lt bs (axCeilDiv cs bs) (axMod g cs) hrext hpb hbgl
  show ((packChunks shape cs bs f).getD
      (fromCoord (axCeilDiv shape cs) (axDiv g cs)) []).getD
      (intraChunkOffset bs (axCeilDiv cs bs) (axMod g cs)) 0 = f g
  unfold packChunks
  rw [getD_range_map _ _ _ _ hk]
  unfold chunkPayload
  rw [getD_range_map _ _ _ _ hp]
  simp only
  rw [intraChunkCoord_intraChunkOffset bs (axCeilDiv cs bs) (axMod g cs) hrext hpb hbgl,
    toCoord_fromCoord _ _ hq, axDivMod_recompose g cs (by omega) hpc]
  simp [hrmod, hg]

theorem toBufferList_buildArray (shape cs bs : List Nat) (ts : Nat) (f : List Nat → Nat)
    (hpc : axPos cs = true) (hpb : axPos bs = true)
    (hlc : cs.length = shape.length) (hlb : bs.length = shape.length) :
    toBufferList (buildArray shape cs bs ts f) =
      (List.range shape.prod).map (fun o => f (toCoord shape o)) := by
  unfold toBufferList
  show (List.range shape.prod).map
      (fun o => getItem (buildArray shape cs bs ts f) (toCoord shape o)) = _
  apply List.map_congr_left
  intro o ho
  have hol : o < shape.prod := by simpa using ho
  exact getItem_buildArray shape cs bs ts f (toCoord shape o) hpc hpb hlc hlb
    (axLt_toCoord shape o hol)

theorem validCtx_parts {ctx : caterva_context_t} (h : validCtx ctx = true) :
    1 ≤ ctx.ndim ∧ ctx.ndim ≤ 8 ∧ ctx.shape.length = ctx.ndim ∧
    ctx.chunkshape.length = ctx.ndim ∧ ctx.blockshape.length = ctx.ndim ∧
    axPos ctx.shape = true ∧ axPos ctx.chunkshape = true ∧ axPos ctx.blockshape = true ∧
    axLe ctx.blockshape ctx.chunkshape = true := by
  simp only [validCtx, Bool.and_eq_true, decide_eq_true_eq] at h
  tauto

/-- Claim C1: for every valid construction context and for every buffer of
`nitems` items (that is, `nitems * typesize` bytes), building an array with
`caterva_from_buffer` and then extracting it with `caterva_to_buffer` into
a buffer of the same byte size returns a buffer equal to the original. -/
theorem c1_buffer_roundtrip (ctx : caterva_context_t) (b : List Nat)
    (hctx : validCtx ctx = true) (hb : b.length = ctx.shape.prod) :
    (caterva_from_buffer ctx b (b.length * ctx.b2_storage.typesize)).bind
      (fun A => caterva_to_buffer A (b.length * ctx.b2_storage.typesize)) =
      Except.ok b := by
  obtain ⟨h1, h8, hls, hlc, hlb, hps, hpc, hpb, hbc⟩ := validCtx_parts hctx
  unfold caterva_from_buffer
  rw [if_neg (by simp [hctx]), if_neg (by simp [hb])]
  show caterva_to_buffer _ _ = _
  unfold caterva_to_buffer
  rw [if_neg (by simp [buildArray, hb])]
  rw [toBufferList_buildArray ctx.shape ctx.chunkshape ctx.blockshape _ _ hpc hpb
    (by omega) (by omega)]
  have hmap : (List.range ctx.shape.prod).map
      (fun o => b.getD (fromCoord ctx.shape (toCoord ctx.shape o)) 0) = b := by
    have hcg : ∀ o ∈ List.range ctx.shape.prod,
        b.getD (fromCoord ctx.shape (toCoord ctx.shape o)) 0 = b.getD o 0 := by
      intro o ho
      rw [fromCoord_toCoord ctx.shape o (by simpa using ho)]
    rw [List.map_congr_left hcg, ← hb, map_getD_range]
  rw [hmap]

/-- Closed witness for claim C1 at the concrete context `ctxW` and buffer
`bufW`. -/
theorem c1_buffer_roundtrip_witness :
    validCtx ctxW = true ∧ bufW.length = ctxW.shape.prod ∧
    (caterva_from_buffer ctxW bufW (bufW.length * ctxW.b2_storage.typesize)).bind
      (fun A => caterva_to_buffer A (bufW.length * ctxW.b2_storage.typesize)) =
      Except.ok bufW :=
  ⟨by decide, by decide, c1_buffer_roundtrip ctxW bufW (by decide) (by decide)⟩

theorem bytesBE_length : ∀ (w n : Nat), (bytesBE w n).length = w
  | 0, _ => rfl
  | w + 1, n => by simp [bytesBE, bytesBE_length w]

theorem readBE_bytesBE : ∀ (w n : Nat), n < 256 ^ w → readBE (bytesBE w n) = n
  | 0, n, h => by
    simp only [pow_zero, Nat.lt_one_iff] at h
    simp [bytesBE, readBE, h]
  | w + 1, n, h => by
    have hp : 0 < 256 ^ w := Nat.pos_pow_of_pos w (by norm_num)
    simp only [bytesBE, readBE, bytesBE_length]
    rw [readBE_bytesBE w (n % 256 ^ w) (Nat.mod_lt _ hp)]
    have hdm := Nat.div_add_mod n (256 ^ w)
    have hc : n / 256 ^ w * 256 ^ w = 256 ^ w * (n / 256 ^ w) := Nat.mul_comm _ _
    omega

theorem parseVals_serializeVals : ∀ (vals : List Nat) (tag w : Nat) (rest : List Nat),
    (∀ v ∈ vals, v < 256 ^ w) →
    parseVals tag w vals.length (serializeVals tag w vals ++ rest) = some (vals, rest)
  | [], tag, w, rest, _ => by simp [serializeVals, parseVals]
  | v :: vs, tag, w, rest, h => by
    have hlen : (bytesBE w v).length = w := bytesBE_length w v
    have hrec := parseVals_serializeVals vs tag w rest
      (fun x hx => h x (List.mem_cons_of_mem _ hx))
    simp only [serializeVals] at hrec
    simp only [serializeVals, List.map_cons, List.flatten_cons, List.length_cons,
      List.cons_append, List.append_assoc]
    generalize hY : (vs.map (fun x => tag :: bytesBE w x)).flatten ++ rest = Y at hrec ⊢
    show (if tag = tag ∧ w ≤ (bytesBE w v ++ Y).length then
        match parseVals tag w vs.length ((bytesBE w v ++ Y).drop w) with
        | some (vs2, rest2) => some (readBE ((bytesBE w v ++ Y).take w) :: vs2, rest2)
        | none => none
      else none) = some (v :: vs, rest)
    rw [if_pos ⟨rfl, by simp [hlen]⟩]
    have htake : (bytesBE w v ++ Y).take w = bytesBE w v := by
      nth_rewrite 1 [← hlen]
      exact List.take_left _ _
    have hdrop : (bytesBE w v ++ Y).drop w = Y := by
      nth_rewrite 1 [← hlen]
      exact List.drop_left _ _
    rw [htake, hdrop, hrec, readBE_bytesBE w v (h v (List.mem_cons_self _ _))]

/-- Claim C2: for every valid shape descriptor with `ndim` in `[1, 8]`,
shape entries up to `2^63 - 1` and chunk/block entries up to `2^31 - 1`,
`caterva_deserialize_meta` applied to the output of
`caterva_serialize_meta` returns exactly the same `ndim`, `shape`,
`chunkshape` and `blockshape` vectors. -/
theorem c2_meta_roundtrip (ndim : Nat) (shape cs bs : List Nat)
    (h1 : 1 ≤ ndim) (h8 : ndim ≤ 8)
    (hls : shape.length = ndim) (hlc : cs.length = ndim) (hlb : bs.length = ndim)
    (hbs : ∀ v ∈ shape, v ≤ 2 ^ 63 - 1) (hbc : ∀ v ∈ cs, v ≤ 2 ^ 31 - 1)
    (hbb : ∀ v ∈ bs, v ≤ 2 ^ 31 - 1) :
    caterva_deserialize_meta (caterva_serialize_meta ndim shape cs bs) =
      some (ndim, shape, cs, bs) := by
  have hts : shape.take ndim = shape := by rw [← hls]; exact List.take_length shape
  have htc : cs.take ndim = cs := by rw [← hlc]; exact List.take_length cs
  have htb : bs.take ndim = bs := by rw [← hlb]; exact List.take_length bs
  have hbs8 : ∀ v ∈ shape, v < 256 ^ 8 := by
    intro v hv
    have := hbs v hv
    have hlt : (2:Nat) ^ 63 - 1 < 256 ^ 8 := by norm_num
    omega
  have hbc4 : ∀ v ∈ cs, v < 256 ^ 4 := by
    intro v hv
    have := hbc v hv
    have hlt : (2:Nat) ^ 31 - 1 < 256 ^ 4 := by norm_num
    omega
  have hbb4 : ∀ v ∈ bs, v < 256 ^ 4 := by
    intro v hv
    have := hbb v hv
    have hlt : (2:Nat) ^ 31 - 1 < 256 ^ 4 := by norm_num
    omega
  unfold caterva_serialize_meta caterva_deserialize_meta
  rw [hts, htc, htb]
  show (if CATERVA_METALAYER_VERSION = CATERVA_METALAYER_VERSION ∧ 1 ≤ ndim ∧ ndim ≤ 8
    then _ else none) = _
  rw [if_pos ⟨rfl, h1, h8⟩]
  rw [List.append_assoc, ← hls, parseVals_serializeVals shape 0xd3 8 _ hbs8]
  show (match parseVals 0xd2 4 shape.length
        (serializeVals 0xd2 4 cs ++ serializeVals 0xd2 4 bs) with
    | some (chunkshape, r2) =>
      match parseVals 0xd2 4 shape.length r2 with
      | some (blockshape, _) => some (shape.length, shape, chunkshape, blockshape)
      | none => none
    | none => none) = some (shape.length, shape, cs, bs)
  rw [show shape.length = cs.length by omega,
    parseVals_serializeVals cs 0xd2 4 _ hbc4]
  show (match parseVals 0xd2 4 cs.length (serializeVals 0xd2 4 bs) with
    | some (blockshape, _) => some (cs.length, shape, cs, blockshape)
    | none => none) = some (cs.length, shape, cs, bs)
  rw [show cs.length = bs.length by omega,
    show serializeVals 0xd2 4 bs = serializeVals 0xd2 4 bs ++ [] from (List.append_nil _).symm,
    parseVals_serializeVals bs 0xd2 4 [] hbb4]

/-- Closed witness for claim C2 at the concrete descriptor of scenario S6
of the spec. -/
theorem c2_meta_roundtrip_witness :
    caterva_deserialize_meta
      (caterva_serialize_meta 3 [100, 200, 300] [10, 20, 30] [5, 5, 5]) =
      some (3, [100, 200, 300], [10, 20, 30], [5, 5, 5]) :=
  c2_meta_roundtrip 3 [100, 200, 300] [10, 20, 30] [5, 5, 5]
    (by decide) (by decide) (by decide) (by decide) (by decide)
    (by decide) (by decide) (by decide)

/-- Claim C3: the region kernel rejects with `OutOfBounds` unless
`0 ≤ start[i] ≤ stop[i] ≤ shape[i]` holds on every axis, rejects with
`BadBufferSize` when the bounds hold but the caller byte count differs from
the product of the region extents times the typesize, and
`caterva_get_slice_buffer` and `caterva_set_slice_buffer` succeed exactly
when both conditions hold. -/
theorem c3_slice_buffer_errors (A : caterva_array_t) (start stop : List Int)
    (buffer bshape : List Nat) (buffersize : Nat) :
    (sliceBoundsOk A.shape start stop = false →
      caterva_get_slice_buffer A start stop bshape buffersize =
        Except.error CatervaError.OutOfBounds ∧
      (caterva_set_slice_buffer buffer bshape buffersize start stop A).1 =
        some CatervaError.OutOfBounds) ∧
    (sliceBoundsOk A.shape start stop = true →
      buffersize ≠ (sliceShape start stop).prod * A.typesize →
      caterva_get_slice_buffer A start stop bshape buffersize =
        Except.error CatervaError.BadBufferSize ∧
      (caterva_set_slice_buffer buffer bshape buffersize start stop A).1 =
        some CatervaError.BadBufferSize) ∧
    ((∃ out, caterva_get_slice_buffer A start stop bshape buffersize = Except.ok out) ↔
      (sliceBoundsOk A.shape start stop = true ∧
        buffersize = (sliceShape start stop).prod * A.typesize)) ∧
    ((caterva_set_slice_buffer buffer bshape buffersize start stop A).1 = none ↔
      (sliceBoundsOk A.shape start stop = true ∧
        buffersize = (sliceShape start stop).prod * A.typesize)) := by
  unfold caterva_get_slice_buffer caterva_set_slice_buffer
  by_cases hB : sliceBoundsOk A.shape start stop = true
  · by_cases hS : buffersize = (sliceShape start stop).prod * A.typesize
    · simp [hB, hS]
    · simp [hB, hS]
  · simp [hB]

/-- Closed witness for claim C3: at the concrete array `arrW`, an
out-of-bounds request on the first axis is rejected with `OutOfBounds` by
both directions of the region kernel. -/
theorem c3_slice_buffer_errors_witness :
    caterva_get_slice_buffer arrW [0, 0] [3, 3] [3, 3] 9 =
      Except.error CatervaError.OutOfBounds ∧
    (caterva_set_slice_buffer bufW [3, 3] 9 [0, 0] [3, 3] arrW).1 =
      some CatervaError.OutOfBounds :=
  (c3_slice_buffer_errors arrW [0, 0] [3, 3] bufW [3, 3] 9).1 (by decide)

theorem sliceBoundsOk_lengths : ∀ (shape : List Nat) (start stop : List Int),
    sliceBoundsOk shape start stop = true →
    start.length = shape.length ∧ stop.length = shape.length
  | [], [], [], _ => ⟨rfl, rfl⟩
  | n :: ns, a :: as, b :: bs, h => by
    simp only [sliceBoundsOk, Bool.and_eq_true, decide_eq_true_eq] at h
    have ih := sliceBoundsOk_lengths ns as bs h.2
    simp [ih.1, ih.2]
  | [], [], _ :: _, h => by simp [sliceBoundsOk] at h
  | [], _ :: _, _, h => by simp [sliceBoundsOk] at h
  | _ :: _, [], _, h => by simp [sliceBoundsOk] at h
  | _ :: _, _ :: _, [], h => by simp [sliceBoundsOk] at h

theorem getD_map_toNat (l : List Int) (i : Nat) (h : i < l.length) :
    (l.map Int.toNat).getD i 0 = (l.getD i (0 : Int)).toNat := by
  rw [List.getD_eq_getElem _ _ (by simpa using h), List.getD_eq_getElem _ _ h]
  simp

theorem mapWithIndex_congr_id {α : Type} (f : Nat → α → α)
    (hf : ∀ k a, f k a = a) : ∀ (i : Nat) (l : List α), mapWithIndex f i l = l
  | _, [] => rfl
  | i, a :: as => by
    simp only [mapWithIndex, hf]
    rw [mapWithIndex_congr_id f hf (i + 1) as]

theorem invariantsB_parts {A : caterva_array_t} (h : invariantsB A = true) :
    1 ≤ A.ndim ∧ A.ndim ≤ 8 ∧ A.shape.length = A.ndim ∧
    A.chunkshape.length = A.ndim ∧ A.blockshape.length = A.ndim ∧
    axPos A.shape = true ∧ axPos A.chunkshape = true ∧ axPos A.blockshape = true ∧
    axLe A.blockshape A.chunkshape = true ∧ A.nitems = A.shape.prod := by
  simp only [invariantsB, Bool.and_eq_true, decide_eq_true_eq] at h
  tauto

theorem chunkIntersects_false_of_empty (A : caterva_array_t) (start stop : List Int)
    (i : Nat) (hA : invariantsB A = true)
    (hB : sliceBoundsOk A.shape start stop = true)
    (hi : i < stop.length) (heq : stop.getD i 0 = start.getD i 0) (k : Nat) :
    chunkIntersects A.shape A.chunkshape start stop k = false := by
  obtain ⟨h1, h8, hls, hlc, hlb, hps, hpc, hpb, hbc, hni⟩ := invariantsB_parts hA
  obtain ⟨hsl, htl⟩ := sliceBoundsOk_lengths A.shape start stop hB
  by_contra hne
  have htrue : chunkIntersects A.shape A.chunkshape start stop k = true := by
    revert hne
    cases chunkIntersects A.shape A.chunkshape start stop k <;> simp
  unfold chunkIntersects at htrue
  rw [axLt_iff] at htrue
  obtain ⟨hlen, hpt⟩ := htrue
  have hkcl : (toCoord (axCeilDiv A.shape A.chunkshape) k).length = A.shape.length := by
    rw [toCoord_length]
    simp only [axCeilDiv, List.length_zipWith]
    omega
  have hil : i < (axMax (start.map Int.toNat)
      (axMul (toCoord (axCeilDiv A.shape A.chunkshape) k) A.chunkshape)).length := by
    simp only [axMax, axMul, List.length_zipWith, List.length_map]
    omega
  have hx := hpt i hil
  rw [show axMax (start.map Int.toNat)
        (axMul (toCoord (axCeilDiv A.shape A.chunkshape) k) A.chunkshape) =
      List.zipWith (fun x y => max x y) (start.map Int.toNat)
        (axMul (toCoord (axCeilDiv A.shape A.chunkshape) k) A.chunkshape) from rfl] at hx
  rw [show axMin (stop.map Int.toNat)
        (axMul (axAdd (toCoord (axCeilDiv A.shape A.chunkshape) k)
          (List.replicate A.shape.length 1)) A.chunkshape) =
      List.zipWith (fun x y => min x y) (stop.map Int.toNat)
        (axMul (axAdd (toCoord (axCeilDiv A.shape A.chunkshape) k)
          (List.replicate A.shape.length 1)) A.chunkshape) from rfl] at hx
  rw [getD_zipWith _ _ _ i (by simpa [hsl, htl] using hi)
      (by simp only [axMul, List.length_zipWith]; omega),
    getD_zipWith _ _ _ i (by simpa [hsl, htl] using hi)
      (by simp only [axMul, axAdd, List.length_zipWith, List.length_replicate]; omega)] at hx
  rw [getD_map_toNat start i (by omega), getD_map_toNat stop i (by omega)] at hx
  rw [heq] at hx
  have hmax := Nat.le_max_left ((start.getD i (0 : Int)).toNat)
    ((axMul (toCoord (axCeilDiv A.shape A.chunkshape) k) A.chunkshape).getD i 0)
  have hmin := Nat.min_le_left ((start.getD i (0 : Int)).toNat)
    ((axMul (axAdd (toCoord (axCeilDiv A.shape A.chunkshape) k)
      (List.replicate A.shape.length 1)) A.chunkshape).getD i 0)
  omega

/-- Claim C9: for every region request with `stop[i] = start[i]` on some
axis, the region is empty: the chunk enumeration yields no chunks, and
`caterva_get_slice_buffer` and `caterva_set_slice_buffer` (with the
matching zero-byte buffer) succeed while leaving the array chunks and the
(empty) caller buffer unchanged. -/
theorem c9_empty_region (A : caterva_array_t) (start stop : List Int)
    (buffer bshape : List Nat) (i : Nat) (hA : invariantsB A = true)
    (hB : sliceBoundsOk A.shape start stop = true)
    (hi : i < stop.length) (heq : stop.getD i 0 = start.getD i 0) :
    regionChunkList A.shape A.chunkshape start stop = [] ∧
    caterva_get_slice_buffer A start stop bshape 0 = Except.ok [] ∧
    (caterva_set_slice_buffer buffer bshape 0 start stop A).1 = none ∧
    (caterva_set_slice_buffer buffer bshape 0 start stop A).2.chunks = A.chunks := by
  obtain ⟨hsl, htl⟩ := sliceBoundsOk_lengths A.shape start stop hB
  have hil2 : i < (sliceShape start stop).length := by
    simp only [sliceShape, List.length_zipWith]
    omega
  have hprod : (sliceShape start stop).prod = 0 := by
    apply List.prod_eq_zero
    have hmem : (sliceShape start stop)[i] ∈ sliceShape start stop :=
      List.getElem_mem _
    have hval : (sliceShape start stop)[i] = 0 := by
      simp only [sliceShape, List.getElem_zipWith]
      rw [List.getD_eq_getElem _ (0 : Int) hi] at heq
      rw [List.getD_eq_getElem _ (0 : Int) (by omega)] at heq
      rw [heq]
      simp
    rw [hval] at hmem
    exact hmem
  have hfalse := chunkIntersects_false_of_empty A start stop i hA hB hi heq
  refine ⟨?_, ?_, ?_, ?_⟩
  · unfold regionChunkList
    rw [List.filter_eq_nil_iff]
    intro k _
    simp [hfalse k]
  · unfold caterva_get_slice_buffer
    rw [if_neg (by simp [hB]), if_neg (by simp [hprod])]
    simp [hprod]
  · unfold caterva_set_slice_buffer
    rw [if_neg (by simp [hB]), if_neg (by simp [hprod])]
  · unfold caterva_set_slice_buffer
    rw [if_neg (by simp [hB]), if_neg (by simp [hprod])]
    show mapWithIndex _ 0 (invalidateCache A).chunks = A.chunks
    rw [show (invalidateCache A).chunks = A.chunks from rfl]
    exact mapWithIndex_congr_id _ (fun k a => by rw [hfalse k]; simp) 0 A.chunks

/-- Closed witness for claim C9 at the concrete array `arrW` and the empty
region `[0,1) x [2,2)`. -/
theorem c9_empty_region_witness :
    regionChunkList arrW.shape arrW.chunkshape [0, 2] [1, 2] = [] ∧
    caterva_get_slice_buffer arrW [0, 2] [1, 2] [1, 0] 0 = Except.ok [] ∧
    (caterva_set_slice_buffer bufW [1, 0] 0 [0, 2] [1, 2] arrW).1 = none ∧
    (caterva_set_slice_buffer bufW [1, 0] 0 [0, 2] [1, 2] arrW).2.chunks = arrW.chunks :=
  c9_empty_region arrW [0, 2] [1, 2] bufW [1, 0] 1 (by decide) (by decide)
    (by decide) (by decide)

/-- Claim C5: for every array and every construction context whose chunk
and block shapes validly tile the shape of the array, `caterva_copy`
succeeds and produces an array whose `caterva_to_buffer` output equals the
one of the source, regardless of the chunk and block shapes chosen. -/
theorem c5_copy_retiling (ctx : caterva_context_t) (src : caterva_array_t)
    (hsrc : invariantsB src = true)
    (hcl : ctx.chunkshape.length = src.ndim) (hbl : ctx.blockshape.length = src.ndim)
    (hpc : axPos ctx.chunkshape = true) (hpb : axPos ctx.blockshape = true)
    (hbc : axLe ctx.blockshape ctx.chunkshape = true) :
    ∃ out, caterva_copy ctx src = Except.ok out ∧
      caterva_to_buffer out.2 (src.nitems * src.typesize) =
        caterva_to_buffer src (src.nitems * src.typesize) := by
  obtain ⟨h1, h8, hls, _, _, hps, _, _, _, hni⟩ := invariantsB_parts hsrc
  have hv : validCtx { ctx with ndim := src.ndim, shape := src.shape } = true := by
    simp only [validCtx, Bool.and_eq_true, decide_eq_true_eq]
    exact ⟨⟨⟨⟨⟨⟨⟨⟨h1, h8⟩, hls⟩, hcl⟩, hbl⟩, hps⟩, hpc⟩, hpb⟩, hbc⟩
  unfold caterva_copy
  rw [if_neg (by simp [hv])]
  refine ⟨_, rfl, ?_⟩
  unfold caterva_to_buffer
  rw [if_neg (by simp [buildArray, hni]), if_neg (by simp)]
  rw [toBufferList_buildArray src.shape ctx.chunkshape ctx.blockshape _ _ hpc hpb
    (by omega) (by omega)]
  unfold toBufferList
  rw [hni]

/-- Closed witness for claim C5 at the concrete array `arrW`, retiled from
2 x 2 chunks with 1 x 2 blocks to a single 2 x 3 chunk with 2 x 1 blocks. -/
theorem c5_copy_retiling_witness :
    ∃ out, caterva_copy ctxRetile arrW = Except.ok out ∧
      caterva_to_buffer out.2 (arrW.nitems * arrW.typesize) =
        caterva_to_buffer arrW (arrW.nitems * arrW.typesize) :=
  c5_copy_retiling ctxRetile arrW (by decide) (by decide) (by decide)
    (by decide) (by decide) (by decide)

/-- Claim C10: a successful `caterva_get_slice` or `caterva_copy` call
returns the context with ndim and shape overwritten (by the ndim of the
source and, for slicing, `stop - start`; for copy, the shape of the
source), while the chunk shape, block shape, storage parameters and
metalayer list of the context are unchanged. -/
theorem c10_ctx_frame (ctx : caterva_context_t) (src : caterva_array_t)
    (start stop : List Int) :
    (∀ out, caterva_copy ctx src = Except.ok out →
      out.1.ndim = src.ndim ∧ out.1.shape = src.shape ∧
      out.1.chunkshape = ctx.chunkshape ∧ out.1.blockshape = ctx.blockshape ∧
      out.1.b2_storage = ctx.b2_storage ∧ out.1.metalayers = ctx.metalayers ∧
      out.1.nmetalayers = ctx.nmetalayers) ∧
    (∀ out, caterva_get_slice ctx src start stop = Except.ok out →
      out.1.ndim = src.ndim ∧ out.1.shape = sliceShape start stop ∧
      out.1.chunkshape = ctx.chunkshape ∧ out.1.blockshape = ctx.blockshape ∧
      out.1.b2_storage = ctx.b2_storage ∧ out.1.metalayers = ctx.metalayers ∧
      out.1.nmetalayers = ctx.nmetalayers) := by
  constructor
  · intro out hout
    unfold caterva_copy at hout
    by_cases hv : validCtx { ctx with ndim := src.ndim, shape := src.shape } = true
    · rw [if_neg (by simp [hv])] at hout
      simp only [Except.ok.injEq] at hout
      rw [← hout]
      exact ⟨rfl, rfl, rfl, rfl, rfl, rfl, rfl⟩
    · rw [if_pos (by simp [hv])] at hout
      simp at hout
  · intro out hout
    unfold caterva_get_slice at hout
    by_cases hb : sliceBoundsOk src.shape start stop = true
    · rw [if_neg (by simp [hb])] at hout
      by_cases hv : validCtx
          { ctx with ndim := src.ndim, shape := sliceShape start stop } = true
      · rw [if_neg (by simp [hv])] at hout
        simp only [Except.ok.injEq] at hout
        rw [← hout]
        exact ⟨rfl, rfl, rfl, rfl, rfl, rfl, rfl⟩
      · rw [if_pos (by simp [hv])] at hout
        simp at hout
    · rw [if_pos (by simp [hb])] at hout
      simp at hout

/-- Closed witness for claim C10: the context returned by the successful
copy of `arrW` under `ctxRetile` keeps its chunk shape, block shape,
storage parameters and metalayers, and carries the source ndim and shape. -/
theorem c10_ctx_frame_witness :
    ctxCopyOut.ndim = arrW.ndim ∧ ctxCopyOut.shape = arrW.shape ∧
    ctxCopyOut.chunkshape = ctxRetile.chunkshape ∧
    ctxCopyOut.blockshape = ctxRetile.blockshape ∧
    ctxCopyOut.b2_storage = ctxRetile.b2_storage ∧
    ctxCopyOut.metalayers = ctxRetile.metalayers ∧
    ctxCopyOut.nmetalayers = ctxRetile.nmetalayers :=
  (c10_ctx_frame ctxRetile arrW [0, 0] [2, 3]).1 (ctxCopyOut, arrCopyOut) (by decide)

theorem squeezeAxes_length_eq : ∀ (m : List Bool) (a b : List Nat),
    m.length = a.length → a.length = b.length →
    (squeezeAxes m a).length = (squeezeAxes m b).length
  | [], [], [], _, _ => rfl
  | m :: ms, x :: xs, y :: ys, h1, h2 => by
    have ih := squeezeAxes_length_eq ms xs ys (by simpa using h1) (by simpa using h2)
    cases m <;> simp [squeezeAxes, ih]
  | [], _ :: _, _, h1, _ => by simp at h1
  | _ :: _, [], _, h1, _ => by simp at h1
  | _ :: _, _ :: _, [], _, h2 => by simp at h2

theorem squeezeAxes_nil : ∀ (l : List Nat), squeezeAxes [] l = l
  | [] => rfl
  | _ :: _ => rfl

theorem axPos_squeezeAxes : ∀ (m : List Bool) (l : List Nat),
    axPos l = true → axPos (squeezeAxes m l) = true
  | [], l, h => by rw [squeezeAxes_nil]; exact h
  | _ :: _, [], _ => rfl
  | m :: ms, x :: xs, h => by
    have hx : 0 < x := by
      have h2 := h
      simp only [axPos, List.all_cons, Bool.and_eq_true, decide_eq_true_eq] at h2
      exact h2.1
    have hxs : axPos xs = true := by
      have h2 := h
      simp only [axPos, List.all_cons, Bool.and_eq_true] at h2
      exact h2.2
    have ih := axPos_squeezeAxes ms xs hxs
    cases m
    · show axPos (x :: squeezeAxes ms xs) = true
      simp only [axPos, List.all_cons, Bool.and_eq_true, decide_eq_true_eq]
      exact ⟨hx, ih⟩
    · show axPos (squeezeAxes ms xs) = true
      exact ih

theorem axLe_squeezeAxes : ∀ (m : List Bool) (a b : List Nat),
    axLe a b = true → m.length = a.length → axLe (squeezeAxes m a) (squeezeAxes m b) = true
  | [], a, b, h, _ => by rw [squeezeAxes_nil, squeezeAxes_nil]; exact h
  | m :: ms, x :: xs, y :: ys, h, hl => by
    simp only [axLe, Bool.and_eq_true, decide_eq_true_eq] at h
    have ih := axLe_squeezeAxes ms xs ys h.2 (by simpa using hl)
    cases m
    · show axLe (x :: squeezeAxes ms xs) (y :: squeezeAxes ms ys) = true
      simp only [axLe, Bool.and_eq_true, decide_eq_true_eq]
      exact ⟨h.1, ih⟩
    · show axLe (squeezeAxes ms xs) (squeezeAxes ms ys) = true
      exact ih
  | _ :: _, [], _, _, hl => by simp at hl
  | _ :: _, _ :: _, [], h, _ => by simp [axLe] at h

theorem prod_squeezeAxes : ∀ (m : List Bool) (s : List Nat),
    maskSqueezable m s = true → (squeezeAxes m s).prod = s.prod
  | [], [], _ => rfl
  | m :: ms, x :: xs, h => by
    simp only [maskSqueezable, Bool.and_eq_true] at h
    have ih := prod_squeezeAxes ms xs h.2
    cases m
    · show (x :: squeezeAxes ms xs).prod = (x :: xs).prod
      simp [ih]
    · have hx : x = 1 := by simpa using h.1
      subst hx
      show (squeezeAxes ms xs).prod = (1 :: xs).prod
      simp [ih]
  | [], _ :: _, h => by simp [maskSqueezable] at h
  | _ :: _, [], h => by simp [maskSqueezable] at h

theorem unsqueezeCoord_toCoord : ∀ (m : List Bool) (s : List Nat) (o : Nat),
    maskSqueezable m s = true → o < s.prod →
    unsqueezeCoord m (toCoord (squeezeAxes m s) o) = toCoord s o
  | [], [], o, _, _ => rfl
  | m :: ms, x :: xs, o, h, ho => by
    simp only [maskSqueezable, Bool.and_eq_true] at h
    have hxs : 0 < xs.prod := by
      rcases Nat.eq_zero_or_pos xs.prod with h0 | h0
      · rw [List.prod_cons, h0, Nat.mul_zero] at ho; omega
      · exact h0
    cases m
    · show (toCoord (x :: squeezeAxes ms xs) o).headD 0 ::
          unsqueezeCoord ms (toCoord (x :: squeezeAxes ms xs) o).tail = toCoord (x :: xs) o
      simp only [toCoord, List.headD_cons, List.tail_cons]
      rw [prod_squeezeAxes ms xs h.2]
      exact congrArg (fun t => o / xs.prod :: t)
        (unsqueezeCoord_toCoord ms xs (o % xs.prod) h.2 (Nat.mod_lt _ hxs))
    · have hx : x = 1 := by simpa using h.1
      subst hx
      rw [List.prod_cons, Nat.one_mul] at ho
      show 0 :: unsqueezeCoord ms (toCoord (squeezeAxes ms xs) o) = toCoord (1 :: xs) o
      simp only [toCoord]
      rw [Nat.div_eq_of_lt ho, Nat.mod_eq_of_lt ho]
      exact congrArg (fun t => 0 :: t) (unsqueezeCoord_toCoord ms xs o h.2 ho)
  | [], _ :: _, _, h, _ => by simp [maskSqueezable] at h
  | _ :: _, [], _, h, _ => by simp [maskSqueezable] at h

theorem maskSqueezable_ones : ∀ (s : List Nat),
    maskSqueezable (s.map (fun n => decide (n = 1))) s = true
  | [] => rfl
  | x :: xs => by
    simp only [List.map_cons, maskSqueezable, Bool.and_eq_true]
    refine ⟨?_, maskSqueezable_ones xs⟩
    by_cases hx : x = 1 <;> simp [hx]

theorem squeezeAxes_ones_filter : ∀ (s : List Nat),
    squeezeAxes (s.map (fun n => decide (n = 1))) s = s.filter (fun n => decide (n ≠ 1))
  | [] => rfl
  | x :: xs => by
    by_cases hx : x = 1
    · simp [squeezeAxes, List.filter_cons, hx, squeezeAxes_ones_filter xs]
    · simp [squeezeAxes, List.filter_cons, hx, squeezeAxes_ones_filter xs]

theorem getD_map_decide_one (s : List Nat) (i : Nat) (h : i < s.length) :
    (s.map (fun n => decide (n = 1))).getD i false = decide (s.getD i 0 = 1) := by
  rw [List.getD_eq_getElem _ _ (by simpa using h), List.getD_eq_getElem _ _ h]
  simp

/-- Claim C6: squeezing an array with at least one singleton axis succeeds,
removes exactly the axes of extent one, preserves the element count and
leaves the row-major contents returned by `caterva_to_buffer` unchanged;
`caterva_squeeze_index` fails with `NotSqueezable` whenever a masked axis
has extent greater than one. -/
theorem c6_squeeze (A : caterva_array_t) (index : List Bool) (j : Nat)
    (hA : invariantsB A = true) (hone : 1 ∈ A.shape) :
    (caterva_squeeze A).1 = none ∧
    (caterva_squeeze A).2.shape = A.shape.filter (fun n => decide (n ≠ 1)) ∧
    (caterva_squeeze A).2.nitems = A.nitems ∧
    caterva_to_buffer (caterva_squeeze A).2 (A.nitems * A.typesize) =
      caterva_to_buffer A (A.nitems * A.typesize) ∧
    (j < A.ndim → index.getD j false = true → 1 < A.shape.getD j 0 →
      (caterva_squeeze_index A index).1 = some CatervaError.NotSqueezable) := by
  obtain ⟨h1, h8, hls, hlc, hlb, hps, hpc, hpb, hbc, hni⟩ := invariantsB_parts hA
  set msk := A.shape.map (fun n => decide (n = 1)) with hmskdef
  have hmask : maskSqueezable msk A.shape = true := maskSqueezable_ones A.shape
  have hany : ¬ ((List.range A.ndim).any fun i =>
      msk.getD i false && decide (1 < A.shape.getD i 0)) = true := by
    rw [List.any_eq_true]
    rintro ⟨i, hmem, hcond⟩
    have hilt : i < A.shape.length := by rw [hls]; simpa using hmem
    rw [hmskdef, getD_map_decide_one A.shape i hilt] at hcond
    simp only [Bool.and_eq_true, decide_eq_true_eq] at hcond
    omega
  have hsq : caterva_squeeze A =
      (none, buildArray (squeezeAxes msk A.shape) (squeezeAxes msk A.chunkshape)
        (squeezeAxes msk A.blockshape) A.typesize
        (fun g => getItem A (unsqueezeCoord msk g))) := by
    unfold caterva_squeeze caterva_squeeze_index
    rw [if_neg hany]
  have hml : msk.length = A.shape.length := by rw [hmskdef]; simp
  have hprodsq : (squeezeAxes msk A.shape).prod = A.shape.prod :=
    prod_squeezeAxes _ _ hmask
  have hlensc : (squeezeAxes msk A.chunkshape).length =
      (squeezeAxes msk A.shape).length :=
    (squeezeAxes_length_eq _ A.shape A.chunkshape (by omega) (by omega)).symm
  have hlensb : (squeezeAxes msk A.blockshape).length =
      (squeezeAxes msk A.shape).length :=
    (squeezeAxes_length_eq _ A.shape A.blockshape (by omega) (by omega)).symm
  refine ⟨by rw [hsq], by rw [hsq]; exact squeezeAxes_ones_filter A.shape, ?_, ?_, ?_⟩
  · rw [hsq]
    show (squeezeAxes msk A.shape).prod = A.nitems
    rw [hprodsq]
    exact hni.symm
  · rw [hsq]
    show caterva_to_buffer
      (buildArray (squeezeAxes msk A.shape) (squeezeAxes msk A.chunkshape)
        (squeezeAxes msk A.blockshape) A.typesize
        (fun g => getItem A (unsqueezeCoord msk g))) (A.nitems * A.typesize) =
      caterva_to_buffer A (A.nitems * A.typesize)
    unfold caterva_to_buffer
    have hn2 : A.nitems * A.typesize = (squeezeAxes msk A.shape).prod * A.typesize := by
      rw [hprodsq, hni]
    rw [if_neg (by
        show ¬¬ (A.nitems * A.typesize = (squeezeAxes msk A.shape).prod * A.typesize)
        simp [hn2]),
      if_neg (by simp)]
    rw [toBufferList_buildArray _ _ _ _ _
      (axPos_squeezeAxes _ _ hpc) (axPos_squeezeAxes _ _ hpb) hlensc hlensb]
    unfold toBufferList
    rw [hprodsq, hni]
    refine congrArg Except.ok ?_
    apply List.map_congr_left
    intro o ho
    have hop : o < A.shape.prod := by simpa using ho
    rw [unsqueezeCoord_toCoord _ _ o hmask hop]
  · intro hj hidx hgt
    unfold caterva_squeeze_index
    have hc : ((List.range A.ndim).any fun i =>
        index.getD i false && decide (1 < A.shape.getD i 0)) = true := by
      rw [List.any_eq_true]
      refine ⟨j, by simpa using hj, ?_⟩
      simp only [Bool.and_eq_true, decide_eq_true_eq]
      exact ⟨hidx, hgt⟩
    rw [if_pos hc]

/-- Closed witness for claim C6 at the concrete array `arrW2` of shape
1 x 3: squeeze drops the singleton axis keeping the contents, and masking
the extent-3 axis is rejected with `NotSqueezable`. -/
theorem lastIdx_none_of_not_mem : ∀ (l : List Nat) (x : Nat),
    (∀ y ∈ l, ¬ y = x) → lastIdx l x = none
  | [], _, _ => rfl
  | a :: as, x, h => by
    have ih := lastIdx_none_of_not_mem as x (fun y hy => h y (List.mem_cons_of_mem _ hy))
    simp only [lastIdx, ih]
    rw [if_neg (h a (List.mem_cons_self _ _))]

theorem lastIdx_of_distinct : ∀ (l : List Nat) (j : Nat),
    distinctL l = true → j < l.length → lastIdx l (l.getD j 0) = some j
  | a :: as, 0, hd, _ => by
    simp only [distinctL, Bool.and_eq_true, Bool.not_eq_true] at hd
    have hnone : lastIdx as a = none := by
      apply lastIdx_none_of_not_mem
      intro y hy hyx
      have hmem : as.any (fun y => decide (y = a)) = true := by
        rw [List.any_eq_true]
        exact ⟨y, hy, by simp [hyx]⟩
      have hfalse : (as.any fun y => decide (y = a)) = false := by
        simpa using hd.1
      rw [hfalse] at hmem
      exact Bool.noConfusion hmem
    simp [lastIdx, hnone]
  | a :: as, j + 1, hd, hj => by
    simp only [distinctL, Bool.and_eq_true, Bool.not_eq_true] at hd
    have ih := lastIdx_of_distinct as j hd.2 (by simpa using hj)
    show lastIdx (a :: as) ((a :: as).getD (j + 1) 0) = some (j + 1)
    rw [List.getD_cons_succ]
    show (match lastIdx as (as.getD j 0) with
      | some j2 => some (j2 + 1)
      | none => if a = as.getD j 0 then some 0 else none) = some (j + 1)
    rw [ih]

theorem selLastIdx_selCoord : ∀ (sel : List (List Nat)) (sizes shape js : List Nat),
    selValid sel sizes shape = true → selDistinct sel = true → axLt js sizes = true →
    selLastIdx sel (selCoord sel js) = some js
  | [], [], [], [], _, _, _ => rfl
  | [], [], [], _ :: _, _, _, hj => by simp [axLt] at hj
  | [], [], _ :: _, _, hv, _, _ => by simp [selValid] at hv
  | [], _ :: _, [], _, hv, _, _ => by simp [selValid] at hv
  | [], _ :: _, _ :: _, _, hv, _, _ => by simp [selValid] at hv
  | _ :: _, [], [], _, hv, _, _ => by simp [selValid] at hv
  | _ :: _, [], _ :: _, _, hv, _, _ => by simp [selValid] at hv
  | _ :: _, _ :: _, [], _, hv, _, _ => by simp [selValid] at hv
  | _ :: _, _ :: _, _ :: _, [], _, _, hj => by simp [axLt] at hj
  | s :: ss, z :: zs, n :: ns, j :: js, hv, hd, hj => by
    simp only [selValid, Bool.and_eq_true, decide_eq_true_eq] at hv
    simp only [selDistinct, Bool.and_eq_true] at hd
    simp only [axLt, Bool.and_eq_true, decide_eq_true_eq] at hj
    show (match lastIdx s (s.getD j 0), selLastIdx ss (selCoord ss js) with
      | some j2, some js2 => some (j2 :: js2)
      | _, _ => none) = some (j :: js)
    rw [lastIdx_of_distinct s j hd.1 (by omega),
      selLastIdx_selCoord ss zs ns js hv.2 hd.2 hj.2]

theorem axLt_selCoord : ∀ (sel : List (List Nat)) (sizes shape js : List Nat),
    selValid sel sizes shape = true → axLt js sizes = true →
    axLt (selCoord sel js) shape = true
  | [], [], [], [], _, _ => rfl
  | [], [], [], _ :: _, _, hj => by simp [axLt] at hj
  | [], [], _ :: _, _, hv, _ => by simp [selValid] at hv
  | [], _ :: _, [], _, hv, _ => by simp [selValid] at hv
  | [], _ :: _, _ :: _, _, hv, _ => by simp [selValid] at hv
  | _ :: _, [], [], _, hv, _ => by simp [selValid] at hv
  | _ :: _, [], _ :: _, _, hv, _ => by simp [selValid] at hv
  | _ :: _, _ :: _, [], _, hv, _ => by simp [selValid] at hv
  | _ :: _, _ :: _, _ :: _, [], _, hj => by simp [axLt] at hj
  | s :: ss, z :: zs, n :: ns, j :: js, hv, hj => by
    simp only [selValid, Bool.and_eq_true, decide_eq_true_eq] at hv
    simp only [axLt, Bool.and_eq_true, decide_eq_true_eq] at hj
    show axLt (s.getD j 0 :: selCoord ss js) (n :: ns) = true
    simp only [axLt, Bool.and_eq_true, decide_eq_true_eq]
    refine ⟨?_, axLt_selCoord ss zs ns js hv.2 hj.2⟩
    have hjl : j < s.length := by omega
    have hmem : s.getD j 0 ∈ s := by
      rw [List.getD_eq_getElem _ _ hjl]
      exact List.getElem_mem _
    have hall := hv.1.2
    rw [List.all_eq_true] at hall
    simpa using hall _ hmem

/-- Claim C7: for every array, every duplicate-free in-bounds orthogonal
selection and every buffer of matching shape and size, writing the buffer
with `caterva_set_orthogonal_selection` and reading the same selection back
with `caterva_get_orthogonal_selection` returns a buffer equal to the one
written. -/
theorem c7_orthogonal_roundtrip (A : caterva_array_t) (sel : List (List Nat))
    (sizes : List Nat) (B bshape : List Nat)
    (hA : invariantsB A = true)
    (hsel : selValid sel sizes A.shape = true)
    (hdist : selDistinct sel = true)
    (hB : B.length = sizes.prod) :
    (caterva_set_orthogonal_selection A sel sizes B bshape
        (sizes.prod * A.typesize)).1 = none ∧
    caterva_get_orthogonal_selection
      (caterva_set_orthogonal_selection A sel sizes B bshape
        (sizes.prod * A.typesize)).2
      sel sizes bshape (sizes.prod * A.typesize) = Except.ok B := by
  obtain ⟨h1, h8, hls, hlc, hlb, hps, hpc, hpb, hbc, hni⟩ := invariantsB_parts hA
  unfold caterva_set_orthogonal_selection
  rw [if_neg (by simp [hsel]), if_neg (by simp)]
  refine ⟨rfl, ?_⟩
  unfold caterva_get_orthogonal_selection
  rw [if_neg (by simp [buildArray, hsel]), if_neg (by simp [buildArray])]
  refine congrArg Except.ok ?_
  have hpt : ∀ o ∈ List.range sizes.prod,
      getItem (buildArray A.shape A.chunkshape A.blockshape A.typesize
        (fun g => match selLastIdx sel g with
          | some js => B.getD (fromCoord sizes js) 0
          | none => getItem A g))
        (selCoord sel (toCoord sizes o)) = B.getD o 0 := by
    intro o ho
    have hop : o < sizes.prod := by simpa using ho
    have hjs : axLt (toCoord sizes o) sizes = true := axLt_toCoord sizes o hop
    have hg : axLt (selCoord sel (toCoord sizes o)) A.shape = true :=
      axLt_selCoord sel sizes A.shape (toCoord sizes o) hsel hjs
    rw [getItem_buildArray A.shape A.chunkshape A.blockshape A.typesize _ _
      hpc hpb (by omega) (by omega) hg]
    rw [selLastIdx_selCoord sel sizes A.shape (toCoord sizes o) hsel hdist hjs]
    show B.getD (fromCoord sizes (toCoord sizes o)) 0 = B.getD o 0
    rw [fromCoord_toCoord sizes o hop]
  rw [List.map_congr_left hpt, ← hB, map_getD_range]

/-- Closed witness for claim C7 at the concrete array `arrW`, the
selection `[[1, 0], [2, 0, 1]]` and a 2 x 3 buffer. -/
theorem c7_orthogonal_roundtrip_witness :
    (caterva_set_orthogonal_selection arrW [[1, 0], [2, 0, 1]] [2, 3]
        [30, 31, 32, 33, 34, 35] [2, 3] (([2, 3] : List Nat).prod * arrW.typesize)).1 =
      none ∧
    caterva_get_orthogonal_selection
      (caterva_set_orthogonal_selection arrW [[1, 0], [2, 0, 1]] [2, 3]
        [30, 31, 32, 33, 34, 35] [2, 3] (([2, 3] : List Nat).prod * arrW.typesize)).2
      [[1, 0], [2, 0, 1]] [2, 3] [2, 3] (([2, 3] : List Nat).prod * arrW.typesize) =
      Except.ok [30, 31, 32, 33, 34, 35] :=
  c7_orthogonal_roundtrip arrW [[1, 0], [2, 0, 1]] [2, 3] [30, 31, 32, 33, 34, 35]
    [2, 3] (by decide) (by decide) (by decide) (by decide)

theorem toNat_cast_eq (n : Nat) : ((n : Int)).toNat = n := rfl

theorem getD_map_ofNat (l : List Nat) (i : Nat) (h : i < l.length) :
    (l.map (Nat.cast : Nat → Int)).getD i 0 = ((l.getD i 0 : Nat) : Int) := by
  have hlm : i < (l.map (Nat.cast : Nat → Int)).length := by
    rw [List.length_map]
    exact h
  rw [List.getD_eq_getElem _ _ hlm, List.getD_eq_getElem _ _ h, List.getElem_map]

theorem map_toNat_map_ofNat : ∀ (l : List Nat),
    (l.map (Nat.cast : Nat → Int)).map Int.toNat = l
  | [] => rfl
  | a :: as => by
    show ((a : Int)).toNat :: (as.map (Nat.cast : Nat → Int)).map Int.toNat = a :: as
    rw [map_toNat_map_ofNat as, toNat_cast_eq]

theorem set_getD_self : ∀ (l : List Nat) (i : Nat), l.set i (l.getD i 0) = l
  | [], _ => rfl
  | a :: as, 0 => by simp
  | a :: as, i + 1 => by
    show a :: as.set i (as.getD i 0) = a :: as
    rw [set_getD_self as i]

theorem resizeChecksOk_iff : ∀ (s : List Nat) (ns st : List Int),
    resizeChecksOk s ns st = true ↔
    (ns.length = s.length ∧ st.length = s.length ∧
      ∀ i, i < s.length → 1 ≤ ns.getD i 0 ∧ 0 ≤ st.getD i 0 ∧
        st.getD i 0 ≤ min ((s.getD i 0 : Nat) : Int) (ns.getD i 0))
  | [], [], [] => by simp [resizeChecksOk]
  | [], [], _ :: _ => by simp [resizeChecksOk]
  | [], _ :: _, _ => by simp [resizeChecksOk]
  | _ :: _, [], _ => by simp [resizeChecksOk]
  | _ :: _, _ :: _, [] => by simp [resizeChecksOk]
  | so :: sos, sn :: sns, t :: ts => by
    simp only [resizeChecksOk, Bool.and_eq_true, decide_eq_true_eq,
      resizeChecksOk_iff sos sns ts]
    constructor
    · rintro ⟨⟨⟨hn1, ht0⟩, htm⟩, hl1, hl2, hpt⟩
      refine ⟨by simp [hl1], by simp [hl2], ?_⟩
      intro i hi
      cases i with
      | zero =>
        simp only [List.getD_cons_zero]
        omega
      | succ n => simpa using hpt n (by simpa using hi)
    · rintro ⟨hl1, hl2, hpt⟩
      have h0 := hpt 0 (by simp)
      simp only [List.getD_cons_zero] at h0
      refine ⟨⟨⟨by omega, by omega⟩, by omega⟩, by simpa using hl1, by simpa using hl2,
        fun i hi => by simpa using hpt (i + 1) (by simpa using hi)⟩

theorem resizeChecksOk_parts : ∀ (s : List Nat) (ns st : List Int),
    resizeChecksOk s ns st = true →
    ns.length = s.length ∧ st.length = s.length ∧ axPos (ns.map Int.toNat) = true
  | [], [], [], _ => ⟨rfl, rfl, rfl⟩
  | so :: sos, sn :: sns, t :: ts, h => by
    simp only [resizeChecksOk, Bool.and_eq_true, decide_eq_true_eq] at h
    obtain ⟨⟨⟨hn1, ht0⟩, htm⟩, hrec⟩ := h
    obtain ⟨hl1, hl2, hpos⟩ := resizeChecksOk_parts sos sns ts hrec
    refine ⟨by simp [hl1], by simp [hl2], ?_⟩
    show axPos (sn.toNat :: sns.map Int.toNat) = true
    simp only [axPos, List.all_cons, Bool.and_eq_true, decide_eq_true_eq]
    exact ⟨by omega, hpos⟩
  | [], [], _ :: _, h => by simp [resizeChecksOk] at h
  | [], _ :: _, _, h => by simp [resizeChecksOk] at h
  | _ :: _, [], _, h => by simp [resizeChecksOk] at h
  | _ :: _, _ :: _, [], h => by simp [resizeChecksOk] at h

theorem resizeSrcCoord_grow_shrink : ∀ (s n t g : List Nat),
    axLe s n = true → axLe t s = true → axLt g s = true →
    ∃ gd, resizeSrcCoord n s t g = some gd ∧ axLt gd n = true ∧
      resizeSrcCoord s n t gd = some g
  | [], [], [], [], _, _, _ => ⟨[], rfl, rfl, rfl⟩
  | s :: ss, nn :: ns, t :: ts, g :: gs, h1, h2, h3 => by
    simp only [axLe, axLt, Bool.and_eq_true, decide_eq_true_eq] at h1 h2 h3
    obtain ⟨gd, hgd1, hgd2, hgd3⟩ := resizeSrcCoord_grow_shrink ss ns ts gs h1.2 h2.2 h3.2
    have ha1 : axisResizeMap nn s t g = some (if g < t then g else g + (nn - s)) := by
      unfold axisResizeMap
      split_ifs with hc1 hc2 hc3 <;>
        first
          | rfl
          | (exfalso; omega)
          | (congr 1; omega)
    have ha2 : axisResizeMap s nn t (if g < t then g else g + (nn - s)) = some g := by
      unfold axisResizeMap
      rw [if_pos h1.1]
      by_cases hgt : g < t
      · rw [if_pos hgt, if_pos hgt]
      · rw [if_neg hgt, if_neg (by omega), if_neg (by omega)]
        congr 1
        omega
    have hd : (if g < t then g else g + (nn - s)) < nn := by
      split_ifs <;> omega
    refine ⟨(if g < t then g else g + (nn - s)) :: gd, ?_, ?_, ?_⟩
    · show (match axisResizeMap nn s t g, resizeSrcCoord ns ss ts gs with
        | some x, some xs => some (x :: xs)
        | _, _ => none) = _
      rw [ha1, hgd1]
    · show axLt ((if g < t then g else g + (nn - s)) :: gd) (nn :: ns) = true
      simp only [axLt, Bool.and_eq_true, decide_eq_true_eq]
      exact ⟨hd, hgd2⟩
    · show (match axisResizeMap s nn t (if g < t then g else g + (nn - s)),
          resizeSrcCoord ss ns ts gd with
        | some x, some xs => some (x :: xs)
        | _, _ => none) = _
      rw [ha2, hgd3]
  | [], [], [], _ :: _, _, _, h3 => by simp [axLt] at h3
  | [], [], _ :: _, _, _, h2, _ => by simp [axLe] at h2
  | [], _ :: _, _, _, h1, _, _ => by simp [axLe] at h1
  | _ :: _, [], _, _, h1, _, _ => by simp [axLe] at h1
  | _ :: _, _ :: _, [], _, _, h2, _ => by simp [axLe] at h2
  | _ :: _, _ :: _, _ :: _, [], _, _, h3 => by simp [axLt] at h3

/-- Claim C8: growing an array along an axis by `k` items at a valid
position `p` with `caterva_resize` and then deleting the range `[p, p + k)`
on that axis with `caterva_delete` yields an array whose `caterva_to_buffer`
output equals the one of the original array. -/
theorem c8_grow_then_delete (A : caterva_array_t) (axis k p : Nat) (ns st : List Int)
    (hA : invariantsB A = true) (haxis : axis < A.ndim)
    (hp : p ≤ A.shape.getD axis 0)
    (hns : ns = (A.shape.set axis (A.shape.getD axis 0 + k)).map (Nat.cast : Nat → Int))
    (hst : st = ((List.replicate A.ndim 0).set axis p).map (Nat.cast : Nat → Int)) :
    (caterva_resize A ns st).1 = none ∧
    (caterva_delete (caterva_resize A ns st).2 axis ((p : Nat) : Int) ((k : Nat) : Int)).1 =
      none ∧
    caterva_to_buffer
        (caterva_delete (caterva_resize A ns st).2 axis ((p : Nat) : Int) ((k : Nat) : Int)).2
        (A.nitems * A.typesize) =
      caterva_to_buffer A (A.nitems * A.typesize) := by
  obtain ⟨h1, h8, hls, hlc, hlb, hps, hpc, hpb, hbc, hni⟩ := invariantsB_parts hA
  have haxs : axis < A.shape.length := by omega
  have hposall := (axPos_iff A.shape).mp hps
  have hsa1 : 1 ≤ A.shape.getD axis 0 := hposall axis haxs
  set sa := A.shape.getD axis 0 with hsadef
  set snN := A.shape.set axis (sa + k) with hsnNdef
  set stN := (List.replicate A.ndim 0).set axis p with hstNdef
  have hsnl : snN.length = A.shape.length := by
    rw [hsnNdef]
    exact List.length_set A.shape axis _
  have hstl : stN.length = A.shape.length := by
    rw [hstNdef, List.length_set, List.length_replicate]
    omega
  have hsnget : ∀ i, i < A.shape.length →
      snN.getD i 0 = if axis = i then sa + k else A.shape.getD i 0 := by
    intro i hi
    rw [hsnNdef, getD_set]
    by_cases hax : axis = i
    · rw [if_pos ⟨hax, hi⟩, if_pos hax]
    · rw [if_neg (fun hc => hax hc.1), if_neg hax]
  have hstget : ∀ i, i < A.shape.length →
      stN.getD i 0 = if axis = i then p else 0 := by
    intro i hi
    rw [hstNdef, getD_set]
    by_cases hax : axis = i
    · rw [if_pos ⟨hax, by rw [List.length_replicate]; omega⟩, if_pos hax]
    · rw [if_neg (fun hc => hax hc.1), if_neg hax, getD_replicate]
      split_ifs <;> rfl
  have hchk1 : resizeChecksOk A.shape ns st = true := by
    rw [hns, hst, resizeChecksOk_iff]
    refine ⟨by rw [List.length_map]; exact hsnl, by rw [List.length_map]; exact hstl, ?_⟩
    intro i hi
    rw [getD_map_ofNat _ _ (by omega), getD_map_ofNat _ _ (by omega)]
    rw [hsnget i hi, hstget i hi]
    have hpi := hposall i hi
    by_cases hax : axis = i
    · rw [if_pos hax, if_pos hax]
      subst hax
      refine ⟨by omega, by omega, ?_⟩
      rw [← hsadef]
      omega
    · rw [if_neg hax, if_neg hax]
      exact ⟨by omega, by omega, by omega⟩
  have hres : caterva_resize A ns st =
      (none, buildArray snN A.chunkshape A.blockshape A.typesize
        (fun g => match resizeSrcCoord A.shape snN stN g with
          | some gsrc => getItem A gsrc
          | none => 0)) := by
    unfold caterva_resize
    rw [if_neg (by simp [hchk1])]
    rw [hns, hst, map_toNat_map_ofNat, map_toNat_map_ofNat]
  set A1 := buildArray snN A.chunkshape A.blockshape A.typesize
    (fun g => match resizeSrcCoord A.shape snN stN g with
      | some gsrc => getItem A gsrc
      | none => 0) with hA1def
  have hA1ndim : A1.ndim = snN.length := by
    rw [hA1def]
    rfl
  have hA1shape : A1.shape = snN := by
    rw [hA1def]
    rfl
  have hA1cs : A1.chunkshape = A.chunkshape := by
    rw [hA1def]
    rfl
  have hA1bs : A1.blockshape = A.blockshape := by
    rw [hA1def]
    rfl
  have hA1ts : A1.typesize = A.typesize := by
    rw [hA1def]
    rfl
  have hA1get : A1.shape.getD axis 0 = sa + k := by
    rw [hA1shape, hsnget axis haxs, if_pos rfl]
  have hsnset : snN.set axis sa = A.shape := by
    rw [hsnNdef, List.set_set, hsadef, set_getD_self]
  have hchk2 : resizeChecksOk A1.shape (A.shape.map (Nat.cast : Nat → Int)) (stN.map (Nat.cast : Nat → Int))
      = true := by
    rw [hA1shape, resizeChecksOk_iff]
    refine ⟨by rw [List.length_map]; omega, by rw [List.length_map]; omega, ?_⟩
    intro i hi
    have hi2 : i < A.shape.length := by omega
    rw [getD_map_ofNat _ _ hi2, getD_map_ofNat _ _ (by omega)]
    rw [hstget i hi2, hsnget i hi2]
    have hpi := hposall i hi2
    by_cases hax : axis = i
    · rw [if_pos hax, if_pos hax]
      subst hax
      refine ⟨by omega, by omega, ?_⟩
      rw [← hsadef]
      omega
    · rw [if_neg hax, if_neg hax]
      exact ⟨by omega, by omega, by omega⟩
  have hdel : caterva_delete A1 axis ((p : Nat) : Int) ((k : Nat) : Int) =
      (none, buildArray A.shape A.chunkshape A.blockshape A.typesize
        (fun g => match resizeSrcCoord snN A.shape stN g with
          | some gsrc => getItem A1 gsrc
          | none => 0)) := by
    unfold caterva_delete
    rw [if_neg (not_not_intro (by rw [hA1ndim, hsnl]; omega))]
    rw [if_neg (not_not_intro ⟨by omega, by omega, by rw [hA1get]; omega⟩)]
    show caterva_resize A1
        ((A1.shape.set axis (A1.shape.getD axis 0 - ((k : Nat) : Int).toNat)).map
          (Nat.cast : Nat → Int))
        (((List.replicate A1.ndim 0).set axis ((p : Nat) : Int).toNat).map
          (Nat.cast : Nat → Int)) =
      (none, buildArray A.shape A.chunkshape A.blockshape A.typesize
        (fun g => match resizeSrcCoord snN A.shape stN g with
          | some gsrc => getItem A1 gsrc
          | none => 0))
    rw [toNat_cast_eq, toNat_cast_eq, hA1get, Nat.add_sub_cancel, hA1shape, hsnset,
      hA1ndim, hsnl, hls, ← hstNdef]
    unfold caterva_resize
    rw [if_neg (by simp [hchk2])]
    rw [map_toNat_map_ofNat, map_toNat_map_ofNat, hA1shape, hA1cs, hA1bs, hA1ts]
  have hle1 : axLe A.shape snN = true := by
    rw [axLe_iff]
    refine ⟨hsnl.symm, ?_⟩
    intro i hi
    rw [hsnget i hi]
    split_ifs with hax
    · subst hax
      rw [← hsadef]
      omega
    · omega
  have hle2 : axLe stN A.shape = true := by
    rw [axLe_iff]
    refine ⟨hstl, ?_⟩
    intro i hi
    have hi2 : i < A.shape.length := by omega
    rw [hstget i hi2]
    split_ifs with hax
    · subst hax
      rw [← hsadef]
      omega
    · omega
  refine ⟨by rw [hres], by rw [hres]; rw [hdel], ?_⟩
  rw [hres]
  show caterva_to_buffer (caterva_delete A1 axis ((p : Nat) : Int) ((k : Nat) : Int)).2
      (A.nitems * A.typesize) = caterva_to_buffer A (A.nitems * A.typesize)
  rw [hdel]
  show caterva_to_buffer (buildArray A.shape A.chunkshape A.blockshape A.typesize
      (fun g => match resizeSrcCoord snN A.shape stN g with
        | some gsrc => getItem A1 gsrc
        | none => 0)) (A.nitems * A.typesize) = _
  unfold caterva_to_buffer
  rw [if_neg (by
      show ¬¬ (A.nitems * A.typesize = A.shape.prod * A.typesize)
      rw [hni]
      simp),
    if_neg (by simp)]
  rw [toBufferList_buildArray A.shape A.chunkshape A.blockshape A.typesize _
    hpc hpb (by omega) (by omega)]
  unfold toBufferList
  rw [hni]
  refine congrArg Except.ok ?_
  apply List.map_congr_left
  intro o ho
  have hop : o < A.shape.prod := by simpa using ho
  have hg : axLt (toCoord A.shape o) A.shape = true := axLt_toCoord A.shape o hop
  obtain ⟨gd, hgd1, hgd2, hgd3⟩ :=
    resizeSrcCoord_grow_shrink A.shape snN stN (toCoord A.shape o) hle1 hle2 hg
  show (match resizeSrcCoord snN A.shape stN (toCoord A.shape o) with
    | some gsrc => getItem A1 gsrc
    | none => 0) = getItem A (toCoord A.shape o)
  rw [hgd1]
  show getItem A1 gd = getItem A (toCoord A.shape o)
  rw [hA1def, getItem_buildArray snN A.chunkshape A.blockshape A.typesize _ gd
    hpc hpb (by omega) (by omega) hgd2]
  show (match resizeSrcCoord A.shape snN stN gd with
    | some gsrc => getItem A gsrc
    | none => 0) = getItem A (toCoord A.shape o)
  rw [hgd3]

/-- Closed witness for claim C8 at the concrete array `arrW`: grow axis 1
by two items at position 1, then delete `[1, 3)` on axis 1. -/
theorem c8_grow_then_delete_witness :
    (caterva_resize arrW [2, 5] [0, 1]).1 = none ∧
    (caterva_delete (caterva_resize arrW [2, 5] [0, 1]).2 1 ((1 : Nat) : Int)
        ((2 : Nat) : Int)).1 = none ∧
    caterva_to_buffer
        (caterva_delete (caterva_resize arrW [2, 5] [0, 1]).2 1 ((1 : Nat) : Int)
          ((2 : Nat) : Int)).2 (arrW.nitems * arrW.typesize) =
      caterva_to_buffer arrW (arrW.nitems * arrW.typesize) :=
  c8_grow_then_delete arrW 1 2 1 [2, 5] [0, 1] (by decide) (by decide) (by decide)
    (by decide) (by decide)

theorem mapWithIndex_length {α β : Type} (f : Nat → α → β) :
    ∀ (i : Nat) (l : List α), (mapWithIndex f i l).length = l.length
  | _, [] => rfl
  | i, _ :: as => by simp [mapWithIndex, mapWithIndex_length f (i + 1) as]

theorem mapWithIndex_mem {α β : Type} (f : Nat → α → β) :
    ∀ (i : Nat) (l : List α) (y : β), y ∈ mapWithIndex f i l →
      ∃ k x, x ∈ l ∧ y = f k x
  | _, [], _, h => by simp [mapWithIndex] at h
  | i, a :: as, y, h => by
    simp only [mapWithIndex, List.mem_cons] at h
    rcases h with h | h
    · exact ⟨i, a, List.mem_cons_self _ _, h⟩
    · obtain ⟨k, x, hx, hy⟩ := mapWithIndex_mem f (i + 1) as y h
      exact ⟨k, x, List.mem_cons_of_mem _ hx, hy⟩

theorem invariantsB_parts2 {A : caterva_array_t} (h : invariantsB A = true) :
    A.extchunkshape = axMul (axCeilDiv A.chunkshape A.blockshape) A.blockshape ∧
    A.chunks.length = (axCeilDiv A.shape A.chunkshape).prod ∧
    (∀ ch ∈ A.chunks, ch.length = A.extchunkshape.prod) := by
  simp only [invariantsB, Bool.and_eq_true, decide_eq_true_eq, List.all_eq_true] at h
  tauto

theorem invariantsB_buildArray (shape cs bs : List Nat) (ts : Nat) (f : List Nat → Nat)
    (h1 : 1 ≤ shape.length) (h8 : shape.length ≤ 8)
    (hlc : cs.length = shape.length) (hlb : bs.length = shape.length)
    (hps : axPos shape = true) (hpc : axPos cs = true) (hpb : axPos bs = true)
    (hbc : axLe bs cs = true) :
    invariantsB (buildArray shape cs bs ts f) = true := by
  have hchlen : ∀ ch ∈ packChunks shape cs bs f,
      ch.length = (axMul (axCeilDiv cs bs) bs).prod := by
    intro ch hch
    unfold packChunks at hch
    rw [List.mem_map] at hch
    obtain ⟨k, _, hk⟩ := hch
    rw [← hk]
    unfold chunkPayload
    simp
  have hplen : (packChunks shape cs bs f).length = (axCeilDiv shape cs).prod := by
    unfold packChunks
    simp
  simp only [invariantsB, buildArray, Bool.and_eq_true, decide_eq_true_eq,
    List.all_eq_true]
  tauto

theorem invariantsB_chunks_update (A : caterva_array_t) (newChunks : List (List Nat))
    (hA : invariantsB A = true)
    (hlen : newChunks.length = A.chunks.length)
    (hall : ∀ ch ∈ newChunks, ch.length = A.extchunkshape.prod) :
    invariantsB { A with chunks := newChunks, chunk_cache := none } = true := by
  have h23n : newChunks.length = (axCeilDiv A.shape A.chunkshape).prod := by
    rw [hlen, (invariantsB_parts2 hA).2.1]
  simp only [invariantsB, Bool.and_eq_true, decide_eq_true_eq, List.all_eq_true] at hA ⊢
  tauto

theorem resize_cases (A : caterva_array_t) (ns st : List Int)
    (hA : invariantsB A = true) :
    ((caterva_resize A ns st).1 ≠ none →
      (caterva_resize A ns st).2 = invalidateCache A) ∧
    ((caterva_resize A ns st).1 = none →
      invariantsB (caterva_resize A ns st).2 = true) := by
  obtain ⟨h1, h8, hls, hlc, hlb, hps, hpc, hpb, hbc, hni⟩ := invariantsB_parts hA
  by_cases hc : resizeChecksOk A.shape ns st = true
  · have hres : caterva_resize A ns st =
        (none, buildArray (ns.map Int.toNat) A.chunkshape A.blockshape A.typesize
          (fun g => match resizeSrcCoord A.shape (ns.map Int.toNat)
              (st.map Int.toNat) g with
            | some gsrc => getItem A gsrc
            | none => 0)) := by
      unfold caterva_resize
      rw [if_neg (by simp [hc])]
    obtain ⟨hl1, hl2, hpos⟩ := resizeChecksOk_parts A.shape ns st hc
    rw [hres]
    refine ⟨fun hne => absurd rfl hne, fun _ => ?_⟩
    apply invariantsB_buildArray
    · rw [List.length_map]; omega
    · rw [List.length_map]; omega
    · rw [List.length_map]; omega
    · rw [List.length_map]; omega
    · exact hpos
    · exact hpc
    · exact hpb
    · exact hbc
  · have hres : caterva_resize A ns st = (some CatervaError.BadAxis, invalidateCache A) := by
      unfold caterva_resize
      rw [if_pos hc]
    rw [hres]
    exact ⟨fun _ => rfl, fun h => Option.noConfusion h⟩

theorem set_slice_cases (buffer bshape : List Nat) (bsize : Nat) (start stop : List Int)
    (A : caterva_array_t) (hA : invariantsB A = true) :
    ((caterva_set_slice_buffer buffer bshape bsize start stop A).1 ≠ none →
      (caterva_set_slice_buffer buffer bshape bsize start stop A).2 =
        invalidateCache A) ∧
    ((caterva_set_slice_buffer buffer bshape bsize start stop A).1 = none →
      invariantsB (caterva_set_slice_buffer buffer bshape bsize start stop A).2 =
        true) := by
  obtain ⟨hext, hchl, hchall⟩ := invariantsB_parts2 hA
  unfold caterva_set_slice_buffer
  by_cases hB : sliceBoundsOk A.shape start stop = true
  · by_cases hS : bsize = (sliceShape start stop).prod * A.typesize
    · rw [if_neg (by simp [hB]), if_neg (by simp [hS])]
      refine ⟨fun hne => absurd rfl hne, fun _ => ?_⟩
      exact invariantsB_chunks_update A
        (mapWithIndex (fun k ch =>
          if chunkIntersects A.shape A.chunkshape start stop k then
            setRegionChunk A.shape A.chunkshape A.blockshape buffer
              (start.map Int.toNat) (stop.map Int.toNat) k ch
          else ch) 0 A.chunks) hA
        (by rw [mapWithIndex_length])
        (by
          intro ch hch
          obtain ⟨k, x, hx, hy⟩ := mapWithIndex_mem _ 0 A.chunks ch hch
          rw [hy]
          by_cases hint : chunkIntersects A.shape A.chunkshape start stop k
          · rw [if_pos hint]
            unfold setRegionChunk
            rw [List.length_map, List.length_range, hext]
          · rw [if_neg hint]
            exact hchall x hx)
    · rw [if_neg (by simp [hB]), if_pos hS]
      exact ⟨fun _ => rfl, fun h => Option.noConfusion h⟩
  · rw [if_pos hB]
    exact ⟨fun _ => rfl, fun h => Option.noConfusion h⟩

theorem insert_cases (A : caterva_array_t) (buffer : List Nat) (buffersize : Nat)
    (axis : Nat) (pos : Int) (hA : invariantsB A = true) :
    ((caterva_insert A buffer buffersize axis pos).1 ≠ none →
      (caterva_insert A buffer buffersize axis pos).2 = invalidateCache A) ∧
    ((caterva_insert A buffer buffersize axis pos).1 = none →
      invariantsB (caterva_insert A buffer buffersize axis pos).2 = true) := by
  unfold caterva_insert
  by_cases hax : axis < A.ndim
  · rw [if_neg (not_not_intro hax)]
    by_cases hpos : 0 ≤ pos ∧ pos ≤ (A.shape.getD axis 0 : Int)
    · rw [if_neg (not_not_intro hpos)]
      by_cases hrow : 0 < rowBytesOf A axis ∧ buffersize % rowBytesOf A axis = 0
      · rw [if_neg (not_not_intro hrow)]
        split
        · exact ⟨fun _ => rfl, fun h => Option.noConfusion h⟩
        · rename_i A1 heq
          have hA1 : invariantsB A1 = true := by
            have h := (resize_cases A
              (insertNewShape A axis (buffersize / rowBytesOf A axis))
              (axisStartV A axis pos.toNat) hA).2
            rw [heq] at h
            exact h rfl
          split
          · exact ⟨fun _ => rfl, fun h => Option.noConfusion h⟩
          · rename_i A2 heq2
            have hA2 : invariantsB A2 = true := by
              have h := (set_slice_cases buffer
                (sliceShape (axisStartV A axis pos.toNat)
                  (insertRegionStop A axis pos.toNat (buffersize / rowBytesOf A axis)))
                buffersize (axisStartV A axis pos.toNat)
                (insertRegionStop A axis pos.toNat (buffersize / rowBytesOf A axis))
                A1 hA1).2
              rw [heq2] at h
              exact h rfl
            exact ⟨fun hne => absurd rfl hne, fun _ => hA2⟩
      · rw [if_pos hrow]
        exact ⟨fun _ => rfl, fun h => Option.noConfusion h⟩
    · rw [if_pos hpos]
      exact ⟨fun _ => rfl, fun h => Option.noConfusion h⟩
  · rw [if_pos hax]
    exact ⟨fun _ => rfl, fun h => Option.noConfusion h⟩

theorem delete_cases (A : caterva_array_t) (axis : Nat) (pos len : Int)
    (hA : invariantsB A = true) :
    ((caterva_delete A axis pos len).1 ≠ none →
      (caterva_delete A axis pos len).2 = invalidateCache A) ∧
    ((caterva_delete A axis pos len).1 = none →
      invariantsB (caterva_delete A axis pos len).2 = true) := by
  unfold caterva_delete
  by_cases hax : axis < A.ndim
  · rw [if_neg (not_not_intro hax)]
    by_cases hb : 0 ≤ pos ∧ 0 ≤ len ∧ pos + len ≤ (A.shape.getD axis 0 : Int)
    · rw [if_neg (not_not_intro hb)]
      exact resize_cases A _ _ hA
    · rw [if_pos hb]
      exact ⟨fun _ => rfl, fun h => Option.noConfusion h⟩
  · rw [if_pos hax]
    exact ⟨fun _ => rfl, fun h => Option.noConfusion h⟩

/-- Counterexample for claim C4 as stated: squeezing the all-singleton
array `arrW3` succeeds, yet the result has `ndim = 0`, so the data-model
invariant `1 ≤ ndim` fails after a successful structural operation. -/
theorem c4_structural_ops_counterexample :
    invariantsB arrW3 = true ∧ (caterva_squeeze arrW3).1 = none ∧
    invariantsB (caterva_squeeze arrW3).2 = false := by decide

/-- Claim C4 (amended): every structural operation (resize, append, insert,
delete, squeeze) that returns an error leaves the array exactly as before
the call apart from the invalidated chunk cache; on success all data-model
invariants hold, except that squeezing an array all of whose axes have
extent one yields a zero-dimensional descriptor (breaking `1 ≤ ndim`);
whenever some axis has extent other than one, squeeze preserves all
invariants. -/
theorem c4_structural_ops (A : caterva_array_t) (ns st : List Int) (buffer : List Nat)
    (buffersize : Nat) (axis : Nat) (pos len : Int) (hA : invariantsB A = true) :
    (((caterva_resize A ns st).1 ≠ none →
        (caterva_resize A ns st).2 = invalidateCache A) ∧
      ((caterva_resize A ns st).1 = none →
        invariantsB (caterva_resize A ns st).2 = true)) ∧
    (((caterva_append A buffer buffersize axis).1 ≠ none →
        (caterva_append A buffer buffersize axis).2 = invalidateCache A) ∧
      ((caterva_append A buffer buffersize axis).1 = none →
        invariantsB (caterva_append A buffer buffersize axis).2 = true)) ∧
    (((caterva_insert A buffer buffersize axis pos).1 ≠ none →
        (caterva_insert A buffer buffersize axis pos).2 = invalidateCache A) ∧
      ((caterva_insert A buffer buffersize axis pos).1 = none →
        invariantsB (caterva_insert A buffer buffersize axis pos).2 = true)) ∧
    (((caterva_delete A axis pos len).1 ≠ none →
        (caterva_delete A axis pos len).2 = invalidateCache A) ∧
      ((caterva_delete A axis pos len).1 = none →
        invariantsB (caterva_delete A axis pos len).2 = true)) ∧
    (((caterva_squeeze A).1 ≠ none → (caterva_squeeze A).2 = invalidateCache A) ∧
      ((caterva_squeeze A).1 = none → (∃ v ∈ A.shape, v ≠ 1) →
        invariantsB (caterva_squeeze A).2 = true)) := by
  obtain ⟨h1, h8, hls, hlc, hlb, hps, hpc, hpb, hbc, hni⟩ := invariantsB_parts hA
  refine ⟨resize_cases A ns st hA, insert_cases A buffer buffersize axis _ hA,
    insert_cases A buffer buffersize axis pos hA, delete_cases A axis pos len hA, ?_⟩
  by_cases hany : ((List.range A.ndim).any fun i =>
      (A.shape.map (fun n => decide (n = 1))).getD i false &&
        decide (1 < A.shape.getD i 0)) = true
  · have hsq : caterva_squeeze A = (some CatervaError.NotSqueezable, invalidateCache A) := by
      unfold caterva_squeeze caterva_squeeze_index
      rw [if_pos hany]
    rw [hsq]
    exact ⟨fun _ => rfl, fun h => Option.noConfusion h⟩
  · have hsq : caterva_squeeze A =
        (none, buildArray (squeezeAxes (A.shape.map (fun n => decide (n = 1))) A.shape)
          (squeezeAxes (A.shape.map (fun n => decide (n = 1))) A.chunkshape)
          (squeezeAxes (A.shape.map (fun n => decide (n = 1))) A.blockshape) A.typesize
          (fun g => getItem A
            (unsqueezeCoord (A.shape.map (fun n => decide (n = 1))) g))) := by
      unfold caterva_squeeze caterva_squeeze_index
      rw [if_neg hany]
    rw [hsq]
    refine ⟨fun hne => absurd rfl hne, fun _ hfat => ?_⟩
    obtain ⟨v, hv, hvne⟩ := hfat
    have hfl : A.shape.filter (fun n => decide (n ≠ 1)) ≠ [] := by
      have hmem : v ∈ A.shape.filter (fun n => decide (n ≠ 1)) :=
        List.mem_filter.mpr ⟨hv, by simpa using hvne⟩
      exact List.ne_nil_of_mem hmem
    have hml : (A.shape.map (fun n => decide (n = 1))).length = A.shape.length := by simp
    have hlen1 : 1 ≤ (squeezeAxes (A.shape.map (fun n => decide (n = 1))) A.shape).length := by
      rw [squeezeAxes_ones_filter]
      have := List.length_pos.mpr hfl
      omega
    have hlen8 : (squeezeAxes (A.shape.map (fun n => decide (n = 1))) A.shape).length ≤ 8 := by
      rw [squeezeAxes_ones_filter]
      have := List.length_filter_le (fun n => decide (n ≠ 1)) A.shape
      omega
    apply invariantsB_buildArray
    · exact hlen1
    · exact hlen8
    · exact squeezeAxes_length_eq _ A.chunkshape A.shape (by omega) (by omega)
    · exact squeezeAxes_length_eq _ A.blockshape A.shape (by omega) (by omega)
    · exact axPos_squeezeAxes _ _ hps
    · exact axPos_squeezeAxes _ _ hpc
    · exact axPos_squeezeAxes _ _ hpb
    · exact axLe_squeezeAxes _ _ _ hbc (by omega)

/-- Closed witness for claim C4 (amended) at the concrete array `arrW`:
a successful resize preserves the invariants, and a delete rejected with
`BadAxis` leaves the array unchanged apart from the cache. -/
theorem c4_structural_ops_witness :
    invariantsB (caterva_resize arrW [2, 4] [0, 0]).2 = true ∧
    (caterva_delete arrW 0 0 5).2 = invalidateCache arrW :=
  ⟨(c4_structural_ops arrW [2, 4] [0, 0] bufW 3 0 0 5 (by decide)).1.2 (by decide),
   (c4_structural_ops arrW [2, 4] [0, 0] bufW 3 0 0 5 (by decide)).2.2.2.1.1 (by decide)⟩

theorem c6_squeeze_witness :
    (caterva_squeeze arrW2).1 = none ∧
    (caterva_squeeze arrW2).2.shape = arrW2.shape.filter (fun n => decide (n ≠ 1)) ∧
    (caterva_squeeze arrW2).2.nitems = arrW2.nitems ∧
    caterva_to_buffer (caterva_squeeze arrW2).2 (arrW2.nitems * arrW2.typesize) =
      caterva_to_buffer arrW2 (arrW2.nitems * arrW2.typesize) ∧
    (caterva_squeeze_index arrW2 [true, true]).1 = some CatervaError.NotSqueezable := by
  have h := c6_squeeze arrW2 [true, true] 1 (by decide) (by decide)
  exact ⟨h.1, h.2.1, h.2.2.1, h.2.2.2.1, h.2.2.2.2 (by decide) (by decide) (by decide)⟩

end Caterva
